import Mathlib

/-!
Verification model of the Ark/Velero backup core (`pkg/backup`).

The repository ships the test suite `pkg/backup/backup_new_test.go` for the
backup pipeline; the pipeline implementation itself is not part of the
source tree here, so the definitions below are modelled from the
specification (resource discovery priority order, scope filter,
cohabitation resolver, item action pipeline, volume snapshot orchestrator,
archive writer), with the behaviour pinned down by the expectations the
in-tree tests assert (tarball paths, action execution sets, snapshot
records).  All definitions are executable; the backup run is a pure
function from a backup request to a final run state.
-/

namespace ArkBackup

/-- An API group plus plural resource name; version independent. -/
structure GroupResource where
  group : String
  resource : String
deriving DecidableEq, Repr

/-- The key identifying one backed-up item: (GroupResource, namespace, name).
Modelled from the spec: `BackedUpItemsSet` is keyed by this triple. -/
structure ItemKey where
  gr : GroupResource
  ns : String
  name : String
deriving DecidableEq, Repr

/-- One concrete object instance.  The namespace is empty for cluster-scoped
items; `labels` is the label map; `terminating` models a non-zero deletion
timestamp.  The item value itself stands for the serialized content. -/
structure ResourceItem where
  ns : String
  name : String
  labels : List (String × String)
  terminating : Bool
deriving DecidableEq, Repr

/-- A discovered API resource: group/version/plural-name/short-name,
whether it is namespaced, and the live items of that type (in enumeration
order), mirroring the `apiResource` fixture of the tests. -/
structure APIResource where
  group : String
  version : String
  name : String
  shortName : String
  namespaced : Bool
  items : List ResourceItem
deriving DecidableEq, Repr

/-- The group-resource of a discovered API resource. -/
def grOf (res : APIResource) : GroupResource := ⟨res.group, res.name⟩

/-- A reference to an additional item returned by an action. -/
structure ResourceIdentifier where
  gr : GroupResource
  ns : String
  name : String
deriving DecidableEq, Repr

/-- The predicate an item action declares it applies to (resource names or
short names, namespaces, and an optional structured label selector). -/
structure ResourceSelector where
  includedResources : List String
  includedNamespaces : List String
  labelSelector : Option (List (String × String))

/-- A backup item action: its `AppliesTo` selector and its `Execute`
behaviour.  `execute` returns the possibly mutated item together with
additional item references, or `none` for an execution error. -/
structure BackupItemAction where
  selector : ResourceSelector
  execute : ResourceItem → Option (ResourceItem × List ResourceIdentifier)

/-- Volume snapshot phase. -/
inductive SnapshotPhase where
  | new
  | inProgress
  | completed
  | failed
deriving DecidableEq, Repr

/-- The spec half of a volume snapshot record. -/
structure SnapshotSpec where
  backupName : String
  location : String
  persistentVolumeName : String
  providerVolumeID : String
  volumeAZ : String
  volumeType : String
  volumeIOPS : Option Int
deriving DecidableEq, Repr

/-- The status half of a volume snapshot record. -/
structure SnapshotStatus where
  phase : SnapshotPhase
  providerSnapshotID : String
deriving DecidableEq, Repr

/-- A volume snapshot record, as appended to the backup request output. -/
structure Snapshot where
  spec : SnapshotSpec
  status : SnapshotStatus
deriving DecidableEq, Repr

/-- A named snapshot location pointing at a provider. -/
structure SnapshotLocation where
  name : String
  provider : String
deriving DecidableEq, Repr

/-- A pluggable snapshot backend: maps a persistent-volume name to a
provider volume ID, reports optional volume type / IOPS metadata, and
creates snapshots (`none` models a backend error). -/
structure VolumeSnapshotter where
  getVolumeID : String → Option String
  getVolumeInfo : String → String → Option (String × Option Int)
  createSnapshot : String → String → Option String

/-- The user-specified backup spec: include/exclude sets for resources and
namespaces, an optional structured label selector, the
include-cluster-resources tri-state and the snapshot-volumes tri-state. -/
structure BackupSpec where
  includedResources : List String
  excludedResources : List String
  includedNamespaces : List String
  excludedNamespaces : List String
  labelSelector : Option (List (String × String))
  includeClusterResources : Option Bool
  snapshotVolumes : Option Bool

/-- Everything one backup run consumes: the discovered catalog, the backup
spec, the registered item actions, the candidate snapshot locations, the
snapshotter registry and the backup's name. -/
structure BackupRequest where
  catalog : List APIResource
  spec : BackupSpec
  actions : List BackupItemAction
  locations : List SnapshotLocation
  getSnapshotter : String → Option VolumeSnapshotter
  backupName : String

/-- One archive entry: the identity of the item as resolved before any
action ran (group-resource, namespace, name), the tarball path derived from
that identity, and the serialized content (the item after all actions). -/
structure ArchiveEntry where
  gr : GroupResource
  ns : String
  name : String
  path : String
  content : ResourceItem
deriving DecidableEq, Repr

/-- The key of an archive entry. -/
def entryKey (e : ArchiveEntry) : ItemKey := ⟨e.gr, e.ns, e.name⟩

/-- The mutable output of one backup run: the set of already backed-up item
keys, the archive entries in write order, the volume snapshot records, a
log of which action (by registration index) ran for which item, and a count
of non-fatal errors. -/
structure BackupState where
  backedUp : List ItemKey
  archive : List ArchiveEntry
  snapshots : List Snapshot
  actionRuns : List (Nat × GroupResource × String × String)
  errs : Nat
deriving DecidableEq, Repr

/-- The empty per-run state. -/
def initState : BackupState := ⟨[], [], [], [], 0⟩

/-- Record one non-fatal error. -/
def pushErr (st : BackupState) : BackupState := { st with errs := st.errs + 1 }

/-- Mark a key as backed up. -/
def markItem (st : BackupState) (k : ItemKey) : BackupState :=
  { st with backedUp := k :: st.backedUp }

/-- Append one archive entry. -/
def pushEntry (st : BackupState) (e : ArchiveEntry) : BackupState :=
  { st with archive := st.archive ++ [e] }

/-- Log that the action with the given registration index ran for the item
currently identified by the given group-resource, namespace and name. -/
def recordRun (st : BackupState) (x : Nat × GroupResource × String × String) : BackupState :=
  { st with actionRuns := st.actionRuns ++ [x] }

/-- The tarball path of an item, from its group-resource and pre-action
identity: `resources/<name>[.<group>]/namespaces/<ns>/<name>.json` for
namespaced items, `resources/<name>[.<group>]/cluster/<name>.json` for
cluster-scoped ones; the group suffix is omitted for the core group. -/
def resourceDir (gr : GroupResource) : String :=
  if gr.group = "" then gr.resource else gr.resource ++ "." ++ gr.group

/-- Full archive path for an item identity. -/
def entryPath (gr : GroupResource) (ns name : String) : String :=
  if ns = "" then "resources/" ++ resourceDir gr ++ "/cluster/" ++ name ++ ".json"
  else "resources/" ++ resourceDir gr ++ "/namespaces/" ++ ns ++ "/" ++ name ++ ".json"

/-- Modelled from the spec: discovery-index lookup of a resource string
(plural name or short name) to a group-resource; ambiguous matches prefer
the core (empty) group, then any non-"extensions" group.  Unresolvable
strings yield `none` and are ignored by the filters. -/
def resolveGR (catalog : List APIResource) (s : String) : Option GroupResource :=
  let ms := catalog.filter fun r => r.name = s ∨ r.shortName = s
  match ms.find? fun r => r.group = "" with
  | some r => some (grOf r)
  | none =>
    match ms.find? fun r => r.group ≠ "extensions" with
    | some r => some (grOf r)
    | none => ms.head?.map grOf

/-- Modelled from the spec: the resource-type filter.  A wildcard in a
non-empty included set wins over everything; a `*` entry in the excluded
set is ignored; unresolvable names in either set are ignored. -/
def resourceTypeIncluded (catalog : List APIResource) (spec : BackupSpec)
    (gr : GroupResource) : Bool :=
  if spec.includedResources ≠ [] ∧ "*" ∈ spec.includedResources then true
  else if (spec.includedResources = [] ∨
        gr ∈ spec.includedResources.filterMap (resolveGR catalog)) ∧
      gr ∉ (spec.excludedResources.filter fun s => s ≠ "*").filterMap (resolveGR catalog) then
    true
  else false

/-- Modelled from the spec: the namespace filter for namespaced items. -/
def nsIncluded (spec : BackupSpec) (ns : String) : Bool :=
  if (spec.includedNamespaces = [] ∨ "*" ∈ spec.includedNamespaces ∨
      ns ∈ spec.includedNamespaces) ∧ ns ∉ spec.excludedNamespaces then true
  else false

/-- Modelled from the spec: the backup is not scoped to an explicit subset
of namespaces (the included-namespaces set is empty or equals "all"). -/
def nsIncludeAll (spec : BackupSpec) : Bool :=
  if spec.includedNamespaces = [] ∨ spec.includedNamespaces = ["*"] then true else false

/-- A structured label selector matches a label map when every required
pair is present. -/
def labelMatches (sel : Option (List (String × String))) (labels : List (String × String)) : Bool :=
  match sel with
  | none => true
  | some kvs => kvs.all fun kv => kv ∈ labels

/-- Modelled from the spec: whether an action's selector matches an item of
the given group-resource.  Resource names in the selector resolve through
the discovery index (so short names work); the namespace restriction is
only consulted for namespaced items — cluster-scoped items (empty
namespace) bypass it, as the tests pin down. -/
def actionApplies (catalog : List APIResource) (sel : ResourceSelector)
    (gr : GroupResource) (item : ResourceItem) : Bool :=
  if (sel.includedResources = [] ∨
        gr ∈ sel.includedResources.filterMap (resolveGR catalog)) ∧
      (item.ns = "" ∨ sel.includedNamespaces = [] ∨ item.ns ∈ sel.includedNamespaces) ∧
      labelMatches sel.labelSelector item.labels = true then true
  else false

/-- Modelled from the spec: the fixed cohabitation table, mapping a plural
resource name to its legacy group and its current group. -/
def cohabitatingResources : List (String × String × String) :=
  [("deployments", "extensions", "apps"),
   ("networkpolicies", "extensions", "networking.k8s.io")]

/-- Modelled from the spec: a group-resource is skipped for this run when it
is the legacy variant of a cohabiting pair whose current variant exists in
the discovered catalog.  Recomputed from the catalog on every run. -/
def cohabSkipGR (catalog : List APIResource) (gr : GroupResource) : Bool :=
  cohabitatingResources.any fun nlc =>
    gr.resource = nlc.1 ∧ gr.group = nlc.2.1 ∧
      catalog.any fun r => r.name = nlc.1 ∧ r.group = nlc.2.2

/-- The resource types with backup priority, in order. -/
def priorityNames : List String := ["pods", "persistentvolumeclaims", "persistentvolumes"]

/-- Stable priority ordering of the catalog: resources named by the head of
`names` first (in catalog order), then the rest prioritized recursively. -/
def prioritize (names : List String) (catalog : List APIResource) : List APIResource :=
  match names with
  | [] => catalog
  | n :: rest =>
    catalog.filter (fun r => r.name = n) ++ prioritize rest (catalog.filter fun r => r.name ≠ n)

/-- Modelled from the spec: the catalog in backup order — pods, then
persistent volume claims, then persistent volumes, then everything else in
catalog order. -/
def sortedResources (catalog : List APIResource) : List APIResource :=
  prioritize priorityNames catalog

/-- The priority rank of a plural resource name (0 = pods, 1 = pvcs,
2 = pvs, 3 = everything else). -/
def prio (name : String) : Nat :=
  if name = "pods" then 0
  else if name = "persistentvolumeclaims" then 1
  else if name = "persistentvolumes" then 2
  else 3

/-- Look up an additional-item reference in the live catalog. -/
def resolveIdentifier (catalog : List APIResource) (id : ResourceIdentifier) :
    Option (APIResource × ResourceItem) :=
  catalog.findSome? fun res =>
    if grOf res = id.gr then
      (res.items.find? fun it => it.ns = id.ns ∧ it.name = id.name).map fun it => (res, it)
    else none

/-- The run-time environment of one backup: the catalog plus the filter
functions prepared once from the backup spec (mirroring the per-request
includes/excludes objects), the actions, and the snapshot configuration. -/
structure RunEnv where
  catalog : List APIResource
  resourceFilter : GroupResource → Bool
  nsFilter : String → Bool
  clusterGate : Bool
  icrFalse : Bool
  labelFilter : List (String × String) → Bool
  snapshotEnabled : Bool
  actions : List BackupItemAction
  locations : List SnapshotLocation
  getSnapshotter : String → Option VolumeSnapshotter
  backupName : String

/-- The provider-specific availability-zone label key. -/
def zoneLabel : String := "failure-domain.beta.kubernetes.io/zone"

/-- The availability zone of a volume item, read from the zone label and
defaulting to the empty string. -/
def pvAZ (item : ResourceItem) : String :=
  ((item.labels.find? fun kv => kv.1 = zoneLabel).map Prod.snd).getD ""

/-- Modelled from the spec: route a persistent volume to the first
configured location whose snapshotter exists and can map the volume to a
provider volume ID; unroutable volumes yield `none` (silently skipped). -/
def routeVolume (env : RunEnv) (pvName : String) :
    Option (String × VolumeSnapshotter × String) :=
  env.locations.findSome? fun loc =>
    (env.getSnapshotter loc.provider).bind fun vs =>
      (vs.getVolumeID pvName).map fun vid => (loc.name, vs, vid)

/-- Modelled from the spec: the snapshot record produced for one routed
volume — the zone read from the zone label (defaulting to empty), optional
type/IOPS metadata, and a Completed status with the provider-assigned
snapshot ID on success or a Failed status with no snapshot ID on error. -/
def snapOutcome (env : RunEnv) (locName : String) (vs : VolumeSnapshotter)
    (vid : String) (item : ResourceItem) : Snapshot :=
  { spec :=
      { backupName := env.backupName
        location := locName
        persistentVolumeName := item.name
        providerVolumeID := vid
        volumeAZ := pvAZ item
        volumeType := ((vs.getVolumeInfo vid (pvAZ item)).map Prod.fst).getD ""
        volumeIOPS := (vs.getVolumeInfo vid (pvAZ item)).bind Prod.snd }
    status :=
      match vs.createSnapshot vid (pvAZ item) with
      | some sid => ⟨SnapshotPhase.completed, sid⟩
      | none => ⟨SnapshotPhase.failed, ""⟩ }

/-- Modelled from the spec: the volume snapshot orchestrator for one
persistent volume.  Unroutable volumes and disabled snapshotting produce
no record; a routed volume produces exactly one `snapOutcome` record. -/
def takePVSnapshot (env : RunEnv) (item : ResourceItem) : Option Snapshot :=
  if env.snapshotEnabled = false then none
  else
    match routeVolume env item.name with
    | none => none
    | some (locName, vs, vid) => some (snapOutcome env locName vs vid item)

/-- The group-resource of persistent volumes. -/
def pvGR : GroupResource := ⟨"", "persistentvolumes"⟩

/-- Append the snapshot record for a persistent-volume item (if any); a
failed snapshot also counts one non-fatal error.  Other resources pass
through unchanged. -/
def snapshotStep (env : RunEnv) (gr : GroupResource) (item : ResourceItem)
    (st : BackupState) : BackupState :=
  if gr = pvGR then
    match takePVSnapshot env item with
    | none => st
    | some snap =>
      { st with
        snapshots := st.snapshots ++ [snap]
        errs := st.errs + (if snap.status.phase = SnapshotPhase.failed then 1 else 0) }
  else st

/-- Run the additional items of one action in order through `bk`; the first
failure stops the list and propagates. -/
def backupAdditionalList (bk : BackupState → ResourceIdentifier → BackupState × Bool) :
    BackupState → List ResourceIdentifier → BackupState × Bool
  | st, [] => (st, true)
  | st, id :: rest =>
    match bk st id with
    | (st', true) => backupAdditionalList bk st' rest
    | (st', false) => (st', false)

/-- Run the matching actions for one item in registration order.
Applicability is judged against the item as resolved before any action ran
(`orig`); the item value itself threads through the actions so mutations
accumulate.  Each action's additional items are backed up (via `bk`) before
the next action runs; an execute error or an additional-item failure stops
the chain and propagates. -/
def runActions (bk : BackupState → ResourceIdentifier → BackupState × Bool)
    (catalog : List APIResource) (gr : GroupResource) (orig : ResourceItem) :
    BackupState → ResourceItem → Nat → List BackupItemAction →
      BackupState × ResourceItem × Bool
  | st, cur, _, [] => (st, cur, true)
  | st, cur, idx, a :: rest =>
    if actionApplies catalog a.selector gr orig then
      let st1 := recordRun st (idx, gr, cur.ns, cur.name)
      match a.execute cur with
      | none => (pushErr st1, cur, false)
      | some (cur', ids) =>
        match backupAdditionalList bk st1 ids with
        | (st2, true) => runActions bk catalog gr orig st2 cur' (idx + 1) rest
        | (st2, false) => (st2, cur', false)
    else runActions bk catalog gr orig st cur (idx + 1) rest

/-- Back up one item.  Guards in order: resource-type filter, terminating
items, the backed-up-items set (marked before anything else runs, which
prevents duplicate writes and infinite recursion), the namespace filter for
namespaced items, and the explicit cluster-resources exclusion for
cluster-scoped items.  Then the matching actions run (additional items
recurse with one unit of fuel less, re-checking scope and cohabitation);
if they all succeed the snapshot step runs for persistent volumes and the
entry is written at the path of the pre-action identity with the
post-action content. -/
def backupItem (env : RunEnv) : Nat → BackupState → APIResource → ResourceItem →
    BackupState × Bool
  | 0, st, _, _ => (pushErr st, false)
  | fuel + 1, st, res, item =>
    if env.resourceFilter (grOf res) = false then (st, true)
    else if item.terminating = true then (st, true)
    else if (⟨grOf res, item.ns, item.name⟩ : ItemKey) ∈ st.backedUp then (st, true)
    else if item.ns ≠ "" ∧ env.nsFilter item.ns = false then
      (markItem st ⟨grOf res, item.ns, item.name⟩, true)
    else if item.ns = "" ∧ env.icrFalse = true then
      (markItem st ⟨grOf res, item.ns, item.name⟩, true)
    else
      match runActions
          (fun s id =>
            match resolveIdentifier env.catalog id with
            | none => (pushErr s, false)
            | some (res', it') =>
              if cohabSkipGR env.catalog (grOf res') = true then (s, true)
              else backupItem env fuel s res' it')
          env.catalog (grOf res) item
          (markItem st ⟨grOf res, item.ns, item.name⟩) item 0 env.actions with
      | (st1, _, false) => (st1, false)
      | (st1, item', true) =>
        (pushEntry (snapshotStep env (grOf res) item' st1)
          ⟨grOf res, item.ns, item.name, entryPath (grOf res) item.ns item.name, item'⟩, true)

/-- Back up one additional-item reference: resolve it in the catalog (a
missing item is an error), skip cohabitation-suppressed variants, and
recurse into the item pipeline. -/
def additionalBackup (env : RunEnv) (fuel : Nat) (st : BackupState)
    (id : ResourceIdentifier) : BackupState × Bool :=
  match resolveIdentifier env.catalog id with
  | none => (pushErr st, false)
  | some (res', it') =>
    if cohabSkipGR env.catalog (grOf res') = true then (st, true)
    else backupItem env fuel st res' it'

/-- Enumerate the items of one resource in order, applying the label
selector at enumeration time (additional items bypass it, as in the
source's list-time filtering). -/
def backupItemsList (env : RunEnv) (fuel : Nat) (res : APIResource) :
    BackupState → List ResourceItem → BackupState
  | st, [] => st
  | st, item :: rest =>
    let st' := if env.labelFilter item.labels = true then (backupItem env fuel st res item).1 else st
    backupItemsList env fuel res st' rest

/-- Back up one discovered resource type: skip cohabitation-suppressed
variants, resource types rejected by the type filter, and cluster-scoped
types rejected by the cluster gate; otherwise enumerate its items. -/
def backupResource (env : RunEnv) (fuel : Nat) (st : BackupState)
    (res : APIResource) : BackupState :=
  if cohabSkipGR env.catalog (grOf res) = true then st
  else if env.resourceFilter (grOf res) = false then st
  else if res.namespaced = false ∧ env.clusterGate = false then st
  else backupItemsList env fuel res st res.items

/-- One full run over the prepared environment. -/
def runCore (env : RunEnv) (fuel : Nat) : BackupState :=
  (sortedResources env.catalog).foldl (fun st res => backupResource env fuel st res) initState

/-- Prepare the run environment from a backup request: the filter closures
are built once per request from the spec and the discovered catalog. -/
def mkRunEnv (req : BackupRequest) : RunEnv :=
  { catalog := req.catalog
    resourceFilter := fun gr => resourceTypeIncluded req.catalog req.spec gr
    nsFilter := fun ns => nsIncluded req.spec ns
    clusterGate :=
      match req.spec.includeClusterResources with
      | some b => b
      | none => nsIncludeAll req.spec
    icrFalse := req.spec.includeClusterResources = some false
    labelFilter := fun ls => labelMatches req.spec.labelSelector ls
    snapshotEnabled := ¬(req.spec.snapshotVolumes = some false)
    actions := req.actions
    locations := req.locations
    getSnapshotter := req.getSnapshotter
    backupName := req.backupName }

/-- Enough fuel for any chain of additional items: every recursion step
marks a fresh key, and there are at most as many keys as catalog items. -/
def defaultFuel (req : BackupRequest) : Nat :=
  req.catalog.foldr (fun r n => r.items.length + n) 0 + 1

/-- One backup run: the final run state (archive, snapshots, action log,
error count) for a backup request. -/
def runBackup (req : BackupRequest) : BackupState :=
  runCore (mkRunEnv req) (defaultFuel req)

/-- The tarball file listing of a run: the fixed version marker plus the
archive entry paths in write order. -/
def tarballPaths (req : BackupRequest) : List String :=
  "metadata/version" :: (runBackup req).archive.map ArchiveEntry.path

/-- The backed-up-items key of an item of a resource. -/
def itemKeyOf (res : APIResource) (item : ResourceItem) : ItemKey :=
  ⟨grOf res, item.ns, item.name⟩

/-- One backup step only extends the run state: the backed-up key set
grows, the archive is appended to — with the appended entries carrying
pairwise distinct keys, each unmarked before the step and marked after —
and the action log is appended to. -/
def Extends (st st' : BackupState) : Prop :=
  (∀ k, k ∈ st.backedUp → k ∈ st'.backedUp) ∧
  (∃ t, st'.archive = st.archive ++ t ∧ (t.map entryKey).Nodup ∧
    ∀ e ∈ t, entryKey e ∉ st.backedUp ∧ entryKey e ∈ st'.backedUp) ∧
  (∃ u, st'.actionRuns = st.actionRuns ++ u)

/-- The additional-item backup closure used by `backupItem` at a given
fuel level. -/
def addBk (env : RunEnv) (fuel : Nat) :
    BackupState → ResourceIdentifier → BackupState × Bool :=
  fun s id =>
    match resolveIdentifier env.catalog id with
    | none => (pushErr s, false)
    | some (res', it') =>
      if cohabSkipGR env.catalog (grOf res') = true then (s, true)
      else backupItem env fuel s res' it'

/-- Archive keys are pairwise distinct and every archived key is recorded
in the backed-up set. -/
def ArchInv (st : BackupState) : Prop :=
  (st.archive.map entryKey).Nodup ∧ ∀ e ∈ st.archive, entryKey e ∈ st.backedUp

/-- Every archive entry of the state satisfies `q`. -/
def ArchAll (q : ArchiveEntry → Prop) (st : BackupState) : Prop :=
  ∀ e ∈ st.archive, q e

/-- No registered action ever returns additional items. -/
def NoAddEnv (env : RunEnv) : Prop :=
  ∀ a ∈ env.actions, ∀ it r, a.execute it = some r → r.2 = []

/-- The keys of a resource's own items. -/
def resKeys (res : APIResource) : List ItemKey := res.items.map (itemKeyOf res)

/-- All item keys of a resource list, in order. -/
def allKeys : List APIResource → List ItemKey
  | [] => []
  | r :: rest => resKeys r ++ allKeys rest

/-- Two successive runs of the same request.  Each run starts from a fresh
empty per-run state; modelled from the spec: no cohabitation choice or
backed-up-items state leaks between runs. -/
def runBackupTwice (req : BackupRequest) : BackupState × BackupState :=
  (runBackup req, runBackup req)

/-! ### Concrete fixtures, translated from the test file -/

/-- A pod fixture (namespaced, no labels, not terminating). -/
def newPod (ns name : String) : ResourceItem := ⟨ns, name, [], false⟩

/-- A persistent-volume fixture (cluster-scoped). -/
def newPV (name : String) : ResourceItem := ⟨"", name, [], false⟩

/-- The pods API resource of the core group. -/
def podsRes (items : List ResourceItem) : APIResource := ⟨"", "v1", "pods", "po", true, items⟩

/-- The persistent-volume-claims API resource of the core group. -/
def pvcsRes (items : List ResourceItem) : APIResource :=
  ⟨"", "v1", "persistentvolumeclaims", "pvc", true, items⟩

/-- The persistent-volumes API resource of the core group. -/
def pvsRes (items : List ResourceItem) : APIResource :=
  ⟨"", "v1", "persistentvolumes", "pv", false, items⟩

/-- The secrets API resource of the core group. -/
def secretsRes (items : List ResourceItem) : APIResource :=
  ⟨"", "v1", "secrets", "secrets", true, items⟩

/-- The deployments API resource of the apps group. -/
def deploysRes (items : List ResourceItem) : APIResource :=
  ⟨"apps", "v1", "deployments", "deploy", true, items⟩

/-- The deployments API resource of the legacy extensions group. -/
def extDeploysRes (items : List ResourceItem) : APIResource :=
  ⟨"extensions", "v1", "deployments", "deploy", true, items⟩

/-- The default backup spec of the tests: no filters, everything unset. -/
def defaultSpec : BackupSpec := ⟨[], [], [], [], none, none, none⟩

/-- A request with no snapshot configuration, named `backup-1`. -/
def mkReq (catalog : List APIResource) (spec : BackupSpec)
    (actions : List BackupItemAction) : BackupRequest :=
  ⟨catalog, spec, actions, [], fun _ => none, "backup-1"⟩

/-- The fake snapshot backend of the tests: one registered volume with the
given provider volume ID, availability zone, type and IOPS; creating a
snapshot fails when `snapErr` and otherwise returns `<id>-snapshot`. -/
def fakeVS (pvName vid az vtype : String) (iops : Int) (snapErr : Bool) : VolumeSnapshotter :=
  { getVolumeID := fun n => if n = pvName then some vid else none
    getVolumeInfo := fun v a => if v = vid ∧ a = az then some (vtype, some iops) else none
    createSnapshot := fun v a =>
      if v = vid ∧ a = az ∧ ¬snapErr then some (v ++ "-snapshot") else none }

/-- The additional-items action of the duplicate-suppression test: runs for
namespace ns-1 and requests pods ns-2/pod-2 and ns-3/pod-3. -/
def addItemsAction : BackupItemAction :=
  { selector := ⟨[], ["ns-1"], none⟩
    execute := fun it => some (it,
      [⟨⟨"", "pods"⟩, "ns-2", "pod-2"⟩, ⟨⟨"", "pods"⟩, "ns-3", "pod-3"⟩]) }

/-- The failing-additional-items action: requests a pod that exists and one
that does not. -/
def failAddAction : BackupItemAction :=
  { selector := ⟨[], ["ns-1"], none⟩
    execute := fun it => some (it,
      [⟨⟨"", "pods"⟩, "ns-2", "pod-2"⟩, ⟨⟨"", "pods"⟩, "ns-4", "pod-4"⟩]) }

/-- An action with no selector that requests the two persistent volumes as
additional items. -/
def pvAddAction : BackupItemAction :=
  { selector := ⟨[], [], none⟩
    execute := fun it => some (it, [⟨pvGR, "", "pv-1"⟩, ⟨pvGR, "", "pv-2"⟩]) }

/-- An action that renames the item and moves it to another namespace. -/
def renameAction : BackupItemAction :=
  { selector := ⟨[], [], none⟩
    execute := fun it =>
      some ({ it with name := it.name ++ "-updated", ns := it.ns ++ "-updated" }, []) }

/-- An action restricted to namespace ns-1 with no resource or label
restriction, recording only (it mutates nothing and adds nothing). -/
def nsSelAction : BackupItemAction :=
  { selector := ⟨[], ["ns-1"], none⟩, execute := fun it => some (it, []) }

/-- The request of the cluster-scoped-additional-items test: namespace
filter ns-1, cluster-resources tri-state unset, an action adding the PVs. -/
def reqC3ce : BackupRequest :=
  mkReq [podsRes [newPod "ns-1" "pod-1", newPod "ns-2" "pod-2"],
      pvsRes [newPV "pv-1", newPV "pv-2"]]
    { defaultSpec with includedNamespaces := ["ns-1"] } [pvAddAction]

/-- The request of the failing-additional-items test. -/
def reqC2w : BackupRequest :=
  mkReq [podsRes [newPod "ns-1" "pod-1", newPod "ns-2" "pod-2", newPod "ns-3" "pod-3"]]
    defaultSpec [failAddAction]

/-- The request of the wildcard-include test. -/
def reqC4w : BackupRequest :=
  mkReq [podsRes [newPod "foo" "bar"], deploysRes [newPod "foo" "bar"]]
    { defaultSpec with includedResources := ["*", "pods"] } []

/-- The request of the cohabitation test: deployments in both groups. -/
def reqC6w : BackupRequest :=
  mkReq [extDeploysRes [newPod "foo" "bar"], deploysRes [newPod "foo" "bar"]]
    defaultSpec []

/-- A request whose action pulls a persistent volume in as an additional
item of a pod, so the volume's entry lands before the claims. -/
def reqC7ce : BackupRequest :=
  mkReq [podsRes [newPod "ns-1" "pod-1"], pvcsRes [newPod "ns-1" "pvc-1"],
      pvsRes [newPV "pv-1"]]
    defaultSpec
    [{ selector := ⟨[], [], none⟩
       execute := fun it =>
        if it.name = "pod-1" then some (it, [⟨pvGR, "", "pv-1"⟩]) else some (it, []) }]

/-- The request of the ordering test: resources discovered out of order,
no actions. -/
def reqC7w : BackupRequest :=
  mkReq [secretsRes [newPod "foo" "bar"], pvsRes [newPV "bar"],
      pvcsRes [newPod "foo" "bar"], podsRes [newPod "foo" "bar"]]
    { defaultSpec with snapshotVolumes := some false } []

/-- The snapshot test request: one persistent volume, one location, one
registered snapshotter; `err` selects the failing backend. -/
def snapReq (err : Bool) : BackupRequest :=
  ⟨[pvsRes [newPV "pv-1"]], defaultSpec, [], [⟨"default", "default"⟩],
    (fun p => if p = "default" then some (fakeVS "pv-1" "vol-1" "" "type-1" 100 err) else none),
    "backup-1"⟩

/-- The run environment of the failing-additional-items request. -/
def envC2 : RunEnv := mkRunEnv reqC2w

/-- The pods resource of the failing-additional-items request. -/
def resC2 : APIResource :=
  podsRes [newPod "ns-1" "pod-1", newPod "ns-2" "pod-2", newPod "ns-3" "pod-3"]

/-- The additional-item references of `failAddAction`. -/
def idsC2 : List ResourceIdentifier :=
  [⟨⟨"", "pods"⟩, "ns-2", "pod-2"⟩, ⟨⟨"", "pods"⟩, "ns-4", "pod-4"⟩]

/-- The state after marking pod-1 and logging the action run. -/
def st1C2 : BackupState :=
  recordRun (markItem initState ⟨⟨"", "pods"⟩, "ns-1", "pod-1"⟩)
    (0, ⟨"", "pods"⟩, "ns-1", "pod-1")

/-- The state after the additional-items backup fails on pod-4. -/
def st2C2 : BackupState := (backupAdditionalList (addBk envC2 2) st1C2 idsC2).1

/-- A namespace-scoped actionless request with cluster-resources unset. -/
def reqC3w : BackupRequest :=
  mkReq [podsRes [newPod "ns-1" "pod-1"], pvsRes [newPV "pv-1"]]
    { defaultSpec with includedNamespaces := ["ns-1"] } []

/-- A namespace-scoped actionless request with cluster resources forced on. -/
def reqC3w2 : BackupRequest :=
  mkReq [podsRes [newPod "ns-1" "pod-1"], pvsRes [newPV "pv-1"]]
    { defaultSpec with
      includedNamespaces := ["ns-1"]
      includeClusterResources := some true } []

/-- The run environment of the rename-action request. -/
def envC9 : RunEnv :=
  mkRunEnv (mkReq [podsRes [newPod "ns-1" "pod-1"]] defaultSpec [renameAction])

/-- The run environment of the namespace-selector-action request. -/
def envC10 : RunEnv :=
  mkRunEnv (mkReq [podsRes [newPod "ns-1" "pod-1", newPod "ns-2" "pod-2"],
      pvsRes [newPV "pv-1", newPV "pv-2"]] defaultSpec [nsSelAction])

/-! ### Field stability of the primitive state operations -/

@[simp] theorem pushErr_backedUp (st : BackupState) : (pushErr st).backedUp = st.backedUp := rfl

@[simp] theorem pushErr_archive (st : BackupState) : (pushErr st).archive = st.archive := rfl

@[simp] theorem pushErr_actionRuns (st : BackupState) :
    (pushErr st).actionRuns = st.actionRuns := rfl

@[simp] theorem markItem_backedUp (st : BackupState) (k : ItemKey) :
    (markItem st k).backedUp = k :: st.backedUp := rfl

@[simp] theorem markItem_archive (st : BackupState) (k : ItemKey) :
    (markItem st k).archive = st.archive := rfl

@[simp] theorem markItem_actionRuns (st : BackupState) (k : ItemKey) :
    (markItem st k).actionRuns = st.actionRuns := rfl

@[simp] theorem pushEntry_backedUp (st : BackupState) (e : ArchiveEntry) :
    (pushEntry st e).backedUp = st.backedUp := rfl

@[simp] theorem pushEntry_archive (st : BackupState) (e : ArchiveEntry) :
    (pushEntry st e).archive = st.archive ++ [e] := rfl

@[simp] theorem pushEntry_actionRuns (st : BackupState) (e : ArchiveEntry) :
    (pushEntry st e).actionRuns = st.actionRuns := rfl

@[simp] theorem snapshotStep_backedUp (env : RunEnv) (gr : GroupResource)
    (item : ResourceItem) (st : BackupState) :
    (snapshotStep env gr item st).backedUp = st.backedUp := by
  unfold snapshotStep
  split <;> first | rfl | (split <;> rfl)

@[simp] theorem snapshotStep_archive (env : RunEnv) (gr : GroupResource)
    (item : ResourceItem) (st : BackupState) :
    (snapshotStep env gr item st).archive = st.archive := by
  unfold snapshotStep
  split <;> first | rfl | (split <;> rfl)

@[simp] theorem snapshotStep_actionRuns (env : RunEnv) (gr : GroupResource)
    (item : ResourceItem) (st : BackupState) :
    (snapshotStep env gr item st).actionRuns = st.actionRuns := by
  unfold snapshotStep
  split <;> first | rfl | (split <;> rfl)

@[simp] theorem entryKey_mk (gr : GroupResource) (ns name path : String)
    (content : ResourceItem) :
    entryKey ⟨gr, ns, name, path, content⟩ = ⟨gr, ns, name⟩ := rfl

/-! ### Append-only evolution of the run state -/

theorem Extends.rfl (st : BackupState) : Extends st st :=
  ⟨fun _ h => h, ⟨[], by simp⟩, ⟨[], by simp⟩⟩

theorem Extends.trans {s1 s2 s3 : BackupState} (h12 : Extends s1 s2) (h23 : Extends s2 s3) :
    Extends s1 s3 := by
  obtain ⟨hb12, ⟨t1, ha1, hn1, he1⟩, ⟨u1, hr1⟩⟩ := h12
  obtain ⟨hb23, ⟨t2, ha2, hn2, he2⟩, ⟨u2, hr2⟩⟩ := h23
  refine ⟨fun k hk => hb23 _ (hb12 _ hk), ⟨t1 ++ t2, ?_, ?_, ?_⟩,
    ⟨u1 ++ u2, by rw [hr2, hr1, List.append_assoc]⟩⟩
  · rw [ha2, ha1, List.append_assoc]
  · rw [List.map_append]
    refine List.Nodup.append hn1 hn2 ?_
    intro k hk1 hk2
    obtain ⟨e1, he1m, rfl⟩ := List.mem_map.1 hk1
    obtain ⟨e2, he2m, hkeq⟩ := List.mem_map.1 hk2
    apply (he2 e2 he2m).1
    rw [hkeq]
    exact (he1 e1 he1m).2
  · intro e he
    rcases List.mem_append.1 he with h | h
    · exact ⟨(he1 e h).1, hb23 _ (he1 e h).2⟩
    · exact ⟨fun hc => (he2 e h).1 (hb12 _ hc), (he2 e h).2⟩

/-- A step that leaves the backed-up set, archive and action log untouched
extends the state. -/
theorem extends_of_eq {st st' : BackupState} (h1 : st'.backedUp = st.backedUp)
    (h2 : st'.archive = st.archive) (h3 : st'.actionRuns = st.actionRuns) :
    Extends st st' :=
  ⟨fun k hk => h1 ▸ hk, ⟨[], by rw [h2, List.append_nil], by simp, by simp⟩,
    ⟨[], by rw [h3, List.append_nil]⟩⟩

theorem extends_pushErr (st : BackupState) : Extends st (pushErr st) :=
  extends_of_eq rfl rfl rfl

theorem extends_markItem (st : BackupState) (k : ItemKey) : Extends st (markItem st k) :=
  ⟨fun _ h => List.mem_cons_of_mem _ h, ⟨[], by simp⟩, ⟨[], by simp⟩⟩

@[simp] theorem recordRun_backedUp (st : BackupState) (x : Nat × GroupResource × String × String) :
    (recordRun st x).backedUp = st.backedUp := rfl

@[simp] theorem recordRun_archive (st : BackupState) (x : Nat × GroupResource × String × String) :
    (recordRun st x).archive = st.archive := rfl

@[simp] theorem recordRun_actionRuns (st : BackupState) (x : Nat × GroupResource × String × String) :
    (recordRun st x).actionRuns = st.actionRuns ++ [x] := rfl

theorem extends_recordRun (st : BackupState) (x : Nat × GroupResource × String × String) :
    Extends st (recordRun st x) :=
  ⟨fun _ h => h, ⟨[], by simp⟩, ⟨[x], by simp⟩⟩

theorem extends_snapshotStep (env : RunEnv) (gr : GroupResource) (item : ResourceItem)
    (st : BackupState) : Extends st (snapshotStep env gr item st) :=
  extends_of_eq (snapshotStep_backedUp ..) (snapshotStep_archive ..) (snapshotStep_actionRuns ..)

theorem extends_backupAdditionalList
    (bk : BackupState → ResourceIdentifier → BackupState × Bool)
    (hbk : ∀ s id, Extends s (bk s id).1) :
    ∀ (ids : List ResourceIdentifier) (st : BackupState),
      Extends st (backupAdditionalList bk st ids).1
  | [], st => Extends.rfl st
  | id :: rest, st => by
    simp only [backupAdditionalList]
    rcases hb : bk st id with ⟨st', flag⟩
    have h1 : Extends st st' := by simpa [hb] using hbk st id
    cases flag
    · exact h1
    · exact h1.trans (extends_backupAdditionalList bk hbk rest st')

theorem extends_runActions
    (bk : BackupState → ResourceIdentifier → BackupState × Bool)
    (hbk : ∀ s id, Extends s (bk s id).1)
    (catalog : List APIResource) (gr : GroupResource) (orig : ResourceItem) :
    ∀ (acts : List BackupItemAction) (st : BackupState) (cur : ResourceItem) (idx : Nat),
      Extends st (runActions bk catalog gr orig st cur idx acts).1
  | [], st, cur, idx => Extends.rfl st
  | a :: rest, st, cur, idx => by
    simp only [runActions]
    split
    · rcases hx : a.execute cur with _ | ⟨cur', ids⟩
      · exact (extends_recordRun st _).trans (extends_pushErr _)
      · rcases hl : backupAdditionalList bk
            (recordRun st (idx, gr, cur.ns, cur.name)) ids with ⟨st2, flag⟩
        have h2 : Extends st st2 := by
          have := (extends_recordRun st (idx, gr, cur.ns, cur.name)).trans
            (extends_backupAdditionalList bk hbk ids
              (recordRun st (idx, gr, cur.ns, cur.name)))
          rwa [hl] at this
        show Extends st
          (match backupAdditionalList bk
              (recordRun st (idx, gr, cur.ns, cur.name)) ids with
            | (st2, true) => runActions bk catalog gr orig st2 cur' (idx + 1) rest
            | (st2, false) => (st2, cur', false)).1
        rw [hl]
        cases flag
        · exact h2
        · exact h2.trans (extends_runActions bk hbk catalog gr orig rest st2 cur' (idx + 1))
    · exact extends_runActions bk hbk catalog gr orig rest st cur (idx + 1)

/-- Unfolding of `backupItem` at positive fuel, phrased via `addBk`. -/
theorem backupItem_succ (env : RunEnv) (fuel : Nat) (st : BackupState)
    (res : APIResource) (item : ResourceItem) :
    backupItem env (fuel + 1) st res item =
      (if env.resourceFilter (grOf res) = false then (st, true)
      else if item.terminating = true then (st, true)
      else if (⟨grOf res, item.ns, item.name⟩ : ItemKey) ∈ st.backedUp then (st, true)
      else if item.ns ≠ "" ∧ env.nsFilter item.ns = false then
        (markItem st ⟨grOf res, item.ns, item.name⟩, true)
      else if item.ns = "" ∧ env.icrFalse = true then
        (markItem st ⟨grOf res, item.ns, item.name⟩, true)
      else
        match runActions (addBk env fuel) env.catalog (grOf res) item
            (markItem st ⟨grOf res, item.ns, item.name⟩) item 0 env.actions with
        | (st1, _, false) => (st1, false)
        | (st1, item', true) =>
          (pushEntry (snapshotStep env (grOf res) item' st1)
            ⟨grOf res, item.ns, item.name, entryPath (grOf res) item.ns item.name, item'⟩,
            true)) := rfl

theorem backupItem_extends (env : RunEnv) :
    ∀ (fuel : Nat) (st : BackupState) (res : APIResource) (item : ResourceItem),
      Extends st (backupItem env fuel st res item).1
  | 0, st, _, _ => extends_pushErr st
  | fuel + 1, st, res, item => by
    have hbk : ∀ s id, Extends s (addBk env fuel s id).1 := by
      intro s id
      unfold addBk
      cases h : resolveIdentifier env.catalog id with
      | none => exact extends_pushErr s
      | some p =>
        rcases p with ⟨res', it'⟩
        simp only
        split
        · exact Extends.rfl s
        · exact backupItem_extends env fuel s res' it'
    rw [backupItem_succ]
    split
    · exact Extends.rfl st
    split
    · exact Extends.rfl st
    split
    · exact Extends.rfl st
    split
    · exact extends_markItem st _
    split
    · exact extends_markItem st _
    case isFalse h1 h2 h3 h4 h5 =>
      rcases hR : runActions (addBk env fuel) env.catalog (grOf res) item
          (markItem st ⟨grOf res, item.ns, item.name⟩) item 0 env.actions with ⟨st1, item', flag⟩
      have hRA : Extends (markItem st ⟨grOf res, item.ns, item.name⟩) st1 := by
        have := extends_runActions (addBk env fuel) hbk env.catalog (grOf res) item
          env.actions (markItem st ⟨grOf res, item.ns, item.name⟩) item 0
        rwa [hR] at this
      cases flag
      · exact (extends_markItem st _).trans hRA
      · obtain ⟨hb1, ⟨t, ha1, hn1, he1⟩, ⟨u1, hr1⟩⟩ := hRA
        simp only [markItem_archive, markItem_backedUp, markItem_actionRuns] at ha1 he1 hr1
        refine ⟨?_, ⟨t ++ [⟨grOf res, item.ns, item.name,
          entryPath (grOf res) item.ns item.name, item'⟩], ?_, ?_, ?_⟩, ⟨u1, ?_⟩⟩
        · intro k hk
          simp only [pushEntry_backedUp, snapshotStep_backedUp]
          exact hb1 k (List.mem_cons_of_mem _ hk)
        · simp only [pushEntry_archive, snapshotStep_archive, ha1, List.append_assoc]
        · rw [List.map_append]
          refine List.Nodup.append hn1 (by simp) ?_
          intro k hk1 hk2
          obtain ⟨e1, he1m, rfl⟩ := List.mem_map.1 hk1
          simp only [List.map_cons, List.map_nil, List.mem_singleton, entryKey_mk] at hk2
          exact (he1 e1 he1m).1 (hk2 ▸ List.mem_cons_self _ _)
        · intro e he
          rcases List.mem_append.1 he with h | h
          · refine ⟨fun hc => (he1 e h).1 (List.mem_cons_of_mem _ hc), ?_⟩
            simp only [pushEntry_backedUp, snapshotStep_backedUp]
            exact (he1 e h).2
          · simp only [List.mem_singleton] at h
            subst h
            refine ⟨by simpa using h3, ?_⟩
            simp only [pushEntry_backedUp, snapshotStep_backedUp, entryKey_mk]
            exact hb1 _ (List.mem_cons_self _ _)
        · simp only [pushEntry_actionRuns, snapshotStep_actionRuns, hr1]

theorem extends_backupItemsList (env : RunEnv) (fuel : Nat) (res : APIResource) :
    ∀ (items : List ResourceItem) (st : BackupState),
      Extends st (backupItemsList env fuel res st items)
  | [], st => Extends.rfl st
  | item :: rest, st => by
    simp only [backupItemsList]
    split
    · exact (backupItem_extends env fuel st res item).trans
        (extends_backupItemsList env fuel res rest _)
    · exact extends_backupItemsList env fuel res rest st

theorem extends_backupResource (env : RunEnv) (fuel : Nat) (st : BackupState)
    (res : APIResource) : Extends st (backupResource env fuel st res) := by
  unfold backupResource
  split
  · exact Extends.rfl st
  split
  · exact Extends.rfl st
  split
  · exact Extends.rfl st
  · exact extends_backupItemsList env fuel res res.items st

theorem extends_foldResources (env : RunEnv) (fuel : Nat) :
    ∀ (rs : List APIResource) (st : BackupState),
      Extends st (rs.foldl (fun st res => backupResource env fuel st res) st)
  | [], st => Extends.rfl st
  | r :: rest, st => by
    rw [List.foldl_cons]
    exact (extends_backupResource env fuel st r).trans (extends_foldResources env fuel rest _)

theorem mem_archive_of_extends {st st' : BackupState} (h : Extends st st')
    {e : ArchiveEntry} (he : e ∈ st.archive) : e ∈ st'.archive := by
  obtain ⟨_, ⟨t, ha, _, _⟩, _⟩ := h
  rw [ha]
  exact List.mem_append_left _ he

/-! ### The at-most-once archive invariant -/

theorem archInv_init : ArchInv initState :=
  ⟨List.nodup_nil, by intro e he; simp [initState] at he⟩

theorem archInv_of_extends {st st' : BackupState} (h : Extends st st') (hi : ArchInv st) :
    ArchInv st' := by
  obtain ⟨hb, ⟨t, ha, hn, he⟩, _⟩ := h
  obtain ⟨hnd, hsub⟩ := hi
  constructor
  · rw [ha, List.map_append]
    refine List.Nodup.append hnd hn ?_
    intro k hk1 hk2
    obtain ⟨e1, he1m, rfl⟩ := List.mem_map.1 hk1
    obtain ⟨e2, he2m, hkeq⟩ := List.mem_map.1 hk2
    apply (he e2 he2m).1
    rw [hkeq]
    exact hsub e1 he1m
  · intro e hem
    rw [ha] at hem
    rcases List.mem_append.1 hem with h | h
    · exact hb _ (hsub e h)
    · exact (he e h).2

theorem runCore_archInv (env : RunEnv) (fuel : Nat) : ArchInv (runCore env fuel) :=
  archInv_of_extends (extends_foldResources env fuel (sortedResources env.catalog) initState)
    archInv_init

/-! ### Archive-entry invariants threaded through the whole pipeline -/

theorem archAll_backupAdditionalList (q : ArchiveEntry → Prop)
    (bk : BackupState → ResourceIdentifier → BackupState × Bool)
    (hbk : ∀ s id, ArchAll q s → ArchAll q (bk s id).1) :
    ∀ (ids : List ResourceIdentifier) (st : BackupState),
      ArchAll q st → ArchAll q (backupAdditionalList bk st ids).1
  | [], _, h => h
  | id :: rest, st, h => by
    simp only [backupAdditionalList]
    rcases hb : bk st id with ⟨st', flag⟩
    have h1 : ArchAll q st' := by simpa [hb] using hbk st id h
    cases flag
    · exact h1
    · exact archAll_backupAdditionalList q bk hbk rest st' h1

theorem archAll_runActions (q : ArchiveEntry → Prop)
    (bk : BackupState → ResourceIdentifier → BackupState × Bool)
    (hbk : ∀ s id, ArchAll q s → ArchAll q (bk s id).1)
    (catalog : List APIResource) (gr : GroupResource) (orig : ResourceItem) :
    ∀ (acts : List BackupItemAction) (st : BackupState) (cur : ResourceItem) (idx : Nat),
      ArchAll q st → ArchAll q (runActions bk catalog gr orig st cur idx acts).1
  | [], _, _, _, h => h
  | a :: rest, st, cur, idx, h => by
    simp only [runActions]
    split
    · have h1 : ArchAll q (recordRun st (idx, gr, cur.ns, cur.name)) := h
      rcases hx : a.execute cur with _ | ⟨cur', ids⟩
      · exact h1
      · rcases hl : backupAdditionalList bk
            (recordRun st (idx, gr, cur.ns, cur.name)) ids with ⟨st2, flag⟩
        have h2 : ArchAll q st2 := by
          have := archAll_backupAdditionalList q bk hbk ids
            (recordRun st (idx, gr, cur.ns, cur.name)) h1
          rwa [hl] at this
        show ArchAll q
          (match backupAdditionalList bk
              (recordRun st (idx, gr, cur.ns, cur.name)) ids with
            | (st2, true) => runActions bk catalog gr orig st2 cur' (idx + 1) rest
            | (st2, false) => (st2, cur', false)).1
        rw [hl]
        cases flag
        · exact h2
        · exact archAll_runActions q bk hbk catalog gr orig rest st2 cur' (idx + 1) h2
    · exact archAll_runActions q bk hbk catalog gr orig rest st cur (idx + 1) h

/-- Invariant preservation through one item backup: the appended entry (if
any) satisfies `q` by `hwrite`, which may use the facts that the item's
resource is not cohabitation-suppressed (an invariant of every call site)
and that the item survived the cluster-scope guard. -/
theorem backupItem_archAll (env : RunEnv) (q : ArchiveEntry → Prop)
    (hwrite : ∀ (res : APIResource) (item item' : ResourceItem),
      cohabSkipGR env.catalog (grOf res) = false →
      ¬(item.ns = "" ∧ env.icrFalse = true) →
      q ⟨grOf res, item.ns, item.name, entryPath (grOf res) item.ns item.name, item'⟩) :
    ∀ (fuel : Nat) (st : BackupState) (res : APIResource) (item : ResourceItem),
      cohabSkipGR env.catalog (grOf res) = false →
      ArchAll q st → ArchAll q (backupItem env fuel st res item).1
  | 0, _, _, _, _, h => h
  | fuel + 1, st, res, item, hc, h => by
    have hbk : ∀ s id, ArchAll q s → ArchAll q (addBk env fuel s id).1 := by
      intro s id hs
      unfold addBk
      cases hr : resolveIdentifier env.catalog id with
      | none => exact hs
      | some p =>
        rcases p with ⟨res', it'⟩
        simp only
        split
        · exact hs
        case isFalse hcs =>
          exact backupItem_archAll env q hwrite fuel s res' it'
            (Bool.not_eq_true _ ▸ hcs) hs
    rw [backupItem_succ]
    split
    · exact h
    split
    · exact h
    split
    · exact h
    split
    · exact h
    split
    · exact h
    case isFalse h1 h2 h3 h4 h5 =>
      rcases hR : runActions (addBk env fuel) env.catalog (grOf res) item
          (markItem st ⟨grOf res, item.ns, item.name⟩) item 0 env.actions with ⟨st1, item', flag⟩
      have hQ1 : ArchAll q st1 := by
        have := archAll_runActions q (addBk env fuel) hbk env.catalog (grOf res) item
          env.actions (markItem st ⟨grOf res, item.ns, item.name⟩) item 0 h
        rwa [hR] at this
      cases flag
      · exact hQ1
      · intro e he
        simp only [pushEntry_archive, snapshotStep_archive] at he
        rcases List.mem_append.1 he with hm | hm
        · exact hQ1 e hm
        · simp only [List.mem_singleton] at hm
          subst hm
          exact hwrite res item item' hc h5

theorem archAll_backupItemsList (env : RunEnv) (q : ArchiveEntry → Prop)
    (hwrite : ∀ (res : APIResource) (item item' : ResourceItem),
      cohabSkipGR env.catalog (grOf res) = false →
      ¬(item.ns = "" ∧ env.icrFalse = true) →
      q ⟨grOf res, item.ns, item.name, entryPath (grOf res) item.ns item.name, item'⟩)
    (fuel : Nat) (res : APIResource) (hc : cohabSkipGR env.catalog (grOf res) = false) :
    ∀ (items : List ResourceItem) (st : BackupState),
      ArchAll q st → ArchAll q (backupItemsList env fuel res st items)
  | [], _, h => h
  | item :: rest, st, h => by
    simp only [backupItemsList]
    split
    · exact archAll_backupItemsList env q hwrite fuel res hc rest _
        (backupItem_archAll env q hwrite fuel st res item hc h)
    · exact archAll_backupItemsList env q hwrite fuel res hc rest st h

theorem archAll_backupResource (env : RunEnv) (q : ArchiveEntry → Prop)
    (hwrite : ∀ (res : APIResource) (item item' : ResourceItem),
      cohabSkipGR env.catalog (grOf res) = false →
      ¬(item.ns = "" ∧ env.icrFalse = true) →
      q ⟨grOf res, item.ns, item.name, entryPath (grOf res) item.ns item.name, item'⟩)
    (fuel : Nat) (st : BackupState) (res : APIResource) (h : ArchAll q st) :
    ArchAll q (backupResource env fuel st res) := by
  unfold backupResource
  split
  · exact h
  case isFalse hc =>
    split
    · exact h
    split
    · exact h
    · exact archAll_backupItemsList env q hwrite fuel res
        (Bool.not_eq_true _ ▸ hc) res.items st h

theorem archAll_foldResources (env : RunEnv) (q : ArchiveEntry → Prop)
    (hwrite : ∀ (res : APIResource) (item item' : ResourceItem),
      cohabSkipGR env.catalog (grOf res) = false →
      ¬(item.ns = "" ∧ env.icrFalse = true) →
      q ⟨grOf res, item.ns, item.name, entryPath (grOf res) item.ns item.name, item'⟩)
    (fuel : Nat) :
    ∀ (rs : List APIResource) (st : BackupState),
      ArchAll q st → ArchAll q (rs.foldl (fun st res => backupResource env fuel st res) st)
  | [], _, h => h
  | r :: rest, st, h => by
    rw [List.foldl_cons]
    exact archAll_foldResources env q hwrite fuel rest _
      (archAll_backupResource env q hwrite fuel st r h)

theorem archAll_runCore (env : RunEnv) (q : ArchiveEntry → Prop)
    (hwrite : ∀ (res : APIResource) (item item' : ResourceItem),
      cohabSkipGR env.catalog (grOf res) = false →
      ¬(item.ns = "" ∧ env.icrFalse = true) →
      q ⟨grOf res, item.ns, item.name, entryPath (grOf res) item.ns item.name, item'⟩)
    (fuel : Nat) : ArchAll q (runCore env fuel) :=
  archAll_foldResources env q hwrite fuel (sortedResources env.catalog) initState
    (by intro e he; simp [initState] at he)

/-- No archived entry belongs to a cohabitation-suppressed group-resource:
every write site (directly enumerated or reached as an additional item)
sits behind the cohabitation check. -/
theorem runCore_cohab (env : RunEnv) (fuel : Nat) :
    ∀ e ∈ (runCore env fuel).archive, cohabSkipGR env.catalog e.gr = false :=
  archAll_runCore env (fun e => cohabSkipGR env.catalog e.gr = false)
    (fun _ _ _ hc _ => hc) fuel

/-- With the explicit cluster-resources exclusion active, no cluster-scoped
entry is ever archived, whatever the actions request. -/
theorem runCore_icrFalse (env : RunEnv) (fuel : Nat) (hicr : env.icrFalse = true) :
    ∀ e ∈ (runCore env fuel).archive, e.ns ≠ "" :=
  archAll_runCore env (fun e => e.ns ≠ "")
    (fun _ _ _ _ h5 hns => h5 ⟨hns, hicr⟩) fuel

/-- The legacy variant of a cohabiting pair is suppressed whenever the
current-group variant is discovered. -/
theorem cohabSkipGR_true_of (catalog : List APIResource) (name legacy current : String)
    (hmem : (name, legacy, current) ∈ cohabitatingResources)
    (hcur : ∃ r ∈ catalog, r.name = name ∧ r.group = current) :
    cohabSkipGR catalog ⟨legacy, name⟩ = true := by
  unfold cohabSkipGR
  rw [List.any_eq_true]
  refine ⟨(name, legacy, current), hmem, ?_⟩
  rw [decide_eq_true_eq]
  refine ⟨rfl, rfl, ?_⟩
  rw [List.any_eq_true]
  obtain ⟨r, hr, h1, h2⟩ := hcur
  exact ⟨r, hr, by simp [h1, h2]⟩

/-- Only the "extensions" group hosts legacy variants, so no other group is
ever cohabitation-suppressed. -/
theorem cohabSkipGR_false_of_group (catalog : List APIResource) (gr : GroupResource)
    (h : gr.group ≠ "extensions") : cohabSkipGR catalog gr = false := by
  unfold cohabSkipGR
  rw [List.any_eq_false]
  intro nlc hmem
  simp only [cohabitatingResources, List.mem_cons, List.not_mem_nil, or_false] at hmem
  rcases hmem with rfl | rfl <;>
    · simp only [decide_eq_true_eq, not_and]
      intro _ h2
      exact absurd h2 h

/-! ### Runs whose actions return no additional items -/

theorem noAddEnv_of_actionless (env : RunEnv) (hact : env.actions = []) : NoAddEnv env := by
  intro a ha
  rw [hact] at ha
  cases ha

/-- Without additional items, the action phase touches neither the archive
nor the backed-up set. -/
theorem runActions_noadd
    (bk : BackupState → ResourceIdentifier → BackupState × Bool)
    (catalog : List APIResource) (gr : GroupResource) (orig : ResourceItem) :
    ∀ (acts : List BackupItemAction)
      (_ : ∀ a ∈ acts, ∀ it r, a.execute it = some r → r.2 = [])
      (st : BackupState) (cur : ResourceItem) (idx : Nat),
      (runActions bk catalog gr orig st cur idx acts).1.archive = st.archive ∧
      (runActions bk catalog gr orig st cur idx acts).1.backedUp = st.backedUp
  | [], _, _, _, _ => ⟨rfl, rfl⟩
  | a :: rest, hna, st, cur, idx => by
    simp only [runActions]
    split
    · rcases hx : a.execute cur with _ | ⟨cur', ids⟩
      · exact ⟨rfl, rfl⟩
      · have hids : ids = [] := hna a (List.mem_cons_self a rest) cur (cur', ids) hx
        subst hids
        exact runActions_noadd bk catalog gr orig rest
          (fun a ha => hna a (List.mem_cons_of_mem _ ha))
          (recordRun st (idx, gr, cur.ns, cur.name)) cur' (idx + 1)
    · exact runActions_noadd bk catalog gr orig rest
        (fun a ha => hna a (List.mem_cons_of_mem _ ha)) st cur (idx + 1)

/-- Without additional items, one item backup either leaves the archive
alone or appends exactly the entry of its own item (original identity in
the path, post-action content). -/
theorem backupItem_noadd_arch (env : RunEnv) (hna : NoAddEnv env)
    (fuel : Nat) (st : BackupState) (res : APIResource) (item : ResourceItem) :
    (backupItem env fuel st res item).1.archive = st.archive ∨
    ∃ item', (backupItem env fuel st res item).1.archive =
      st.archive ++ [⟨grOf res, item.ns, item.name,
        entryPath (grOf res) item.ns item.name, item'⟩] := by
  cases fuel with
  | zero => exact Or.inl rfl
  | succ fuel =>
    rw [backupItem_succ]
    split
    · exact Or.inl rfl
    split
    · exact Or.inl rfl
    split
    · exact Or.inl rfl
    split
    · exact Or.inl rfl
    split
    · exact Or.inl rfl
    · rcases hR : runActions (addBk env fuel) env.catalog (grOf res) item
          (markItem st ⟨grOf res, item.ns, item.name⟩) item 0 env.actions with ⟨st1, item', flag⟩
      have hr := runActions_noadd (addBk env fuel) env.catalog (grOf res) item env.actions hna
        (markItem st ⟨grOf res, item.ns, item.name⟩) item 0
      rw [hR] at hr
      cases flag
      · exact Or.inl (by simpa using hr.1)
      · refine Or.inr ⟨item', ?_⟩
        simp only [pushEntry_archive, snapshotStep_archive]
        rw [hr.1]
        simp

/-- Without additional items, one item backup either leaves the backed-up
set alone or marks exactly its own item key. -/
theorem backupItem_noadd_backedUp (env : RunEnv) (hna : NoAddEnv env)
    (fuel : Nat) (st : BackupState) (res : APIResource) (item : ResourceItem) :
    (backupItem env fuel st res item).1.backedUp = st.backedUp ∨
    (backupItem env fuel st res item).1.backedUp = itemKeyOf res item :: st.backedUp := by
  cases fuel with
  | zero => exact Or.inl rfl
  | succ fuel =>
    rw [backupItem_succ]
    split
    · exact Or.inl rfl
    split
    · exact Or.inl rfl
    split
    · exact Or.inl rfl
    split
    · exact Or.inr rfl
    split
    · exact Or.inr rfl
    · rcases hR : runActions (addBk env fuel) env.catalog (grOf res) item
          (markItem st ⟨grOf res, item.ns, item.name⟩) item 0 env.actions with ⟨st1, item', flag⟩
      have hr := runActions_noadd (addBk env fuel) env.catalog (grOf res) item env.actions hna
        (markItem st ⟨grOf res, item.ns, item.name⟩) item 0
      rw [hR] at hr
      cases flag
      · exact Or.inr (by simpa using hr.2)
      · refine Or.inr ?_
        simp only [pushEntry_backedUp, snapshotStep_backedUp]
        rw [hr.2]
        simp [itemKeyOf]

/-- With no actions registered, an item that passes every guard is written:
its entry carries the identity it had when first reached and its own
content. -/
theorem backupItem_actionless_write (env : RunEnv) (hact : env.actions = [])
    (fuel : Nat) (st : BackupState) (res : APIResource) (item : ResourceItem)
    (hf : env.resourceFilter (grOf res) = true)
    (ht : item.terminating = false)
    (hk : (⟨grOf res, item.ns, item.name⟩ : ItemKey) ∉ st.backedUp)
    (hns : item.ns ≠ "" → env.nsFilter item.ns = true)
    (hicr : item.ns = "" → env.icrFalse = false) :
    backupItem env (fuel + 1) st res item =
      (pushEntry
        (snapshotStep env (grOf res) item (markItem st ⟨grOf res, item.ns, item.name⟩))
        ⟨grOf res, item.ns, item.name, entryPath (grOf res) item.ns item.name, item⟩,
        true) := by
  have h4 : ¬(item.ns ≠ "" ∧ env.nsFilter item.ns = false) := by
    rintro ⟨hne, hff⟩
    rw [hns hne] at hff
    cases hff
  have h5 : ¬(item.ns = "" ∧ env.icrFalse = true) := by
    rintro ⟨hne, hff⟩
    rw [hicr hne] at hff
    cases hff
  rw [backupItem_succ, hact]
  rw [if_neg (by simp [hf]), if_neg (by simp [ht]), if_neg hk, if_neg h4, if_neg h5]
  rfl

/-! ### Reaching an eligible item through the run -/

theorem mem_allKeys_of_mem {rs : List APIResource} {res : APIResource}
    (hres : res ∈ rs) {k : ItemKey} (hk : k ∈ resKeys res) : k ∈ allKeys rs := by
  induction rs with
  | nil => cases hres
  | cons r rest ih =>
    rcases List.mem_cons.1 hres with rfl | hm
    · exact List.mem_append_left _ hk
    · exact List.mem_append_right _ (ih hm)

theorem backedUp_growth_itemsList (env : RunEnv) (hna : NoAddEnv env)
    (fuel : Nat) (res : APIResource) :
    ∀ (items : List ResourceItem) (st : BackupState) (k : ItemKey),
      k ∈ (backupItemsList env fuel res st items).backedUp →
      k ∈ st.backedUp ∨ k ∈ items.map (itemKeyOf res)
  | [], _, _, h => Or.inl h
  | item :: rest, st, k, h => by
    simp only [backupItemsList] at h
    by_cases hl : env.labelFilter item.labels = true
    · rw [if_pos hl] at h
      rcases backedUp_growth_itemsList env hna fuel res rest _ k h with h1 | h1
      · rcases backupItem_noadd_backedUp env hna fuel st res item with h2 | h2
        · rw [h2] at h1
          exact Or.inl h1
        · rw [h2] at h1
          rcases List.mem_cons.1 h1 with rfl | h3
          · exact Or.inr (by simp)
          · exact Or.inl h3
      · exact Or.inr (List.mem_cons_of_mem _ h1)
    · rw [if_neg hl] at h
      rcases backedUp_growth_itemsList env hna fuel res rest _ k h with h1 | h1
      · exact Or.inl h1
      · exact Or.inr (List.mem_cons_of_mem _ h1)

theorem backedUp_growth_backupResource (env : RunEnv) (hna : NoAddEnv env)
    (fuel : Nat) (st : BackupState) (res : APIResource) (k : ItemKey)
    (h : k ∈ (backupResource env fuel st res).backedUp) :
    k ∈ st.backedUp ∨ k ∈ resKeys res := by
  unfold backupResource at h
  split at h
  · exact Or.inl h
  split at h
  · exact Or.inl h
  split at h
  · exact Or.inl h
  · exact backedUp_growth_itemsList env hna fuel res res.items st k h

theorem backedUp_growth_fold (env : RunEnv) (hna : NoAddEnv env) (fuel : Nat) :
    ∀ (rs : List APIResource) (st : BackupState) (k : ItemKey),
      k ∈ (rs.foldl (fun st res => backupResource env fuel st res) st).backedUp →
      k ∈ st.backedUp ∨ k ∈ allKeys rs
  | [], _, _, h => Or.inl h
  | r :: rest, st, k, h => by
    rw [List.foldl_cons] at h
    rcases backedUp_growth_fold env hna fuel rest _ k h with h1 | h1
    · rcases backedUp_growth_backupResource env hna fuel st r k h1 with h2 | h2
      · exact Or.inl h2
      · exact Or.inr (List.mem_append_left _ h2)
    · exact Or.inr (List.mem_append_right _ h1)

/-- With no actions, an eligible item of an eligible resource is written by
the enumeration of that resource, and its entry survives the rest of the
enumeration. -/
theorem backupItemsList_writes (env : RunEnv) (hact : env.actions = [])
    (fuel : Nat) (res : APIResource)
    (hf : env.resourceFilter (grOf res) = true) :
    ∀ (items : List ResourceItem) (st : BackupState) (item : ResourceItem),
      item ∈ items →
      (items.map (itemKeyOf res)).Nodup →
      itemKeyOf res item ∉ st.backedUp →
      env.labelFilter item.labels = true →
      item.terminating = false →
      (item.ns ≠ "" → env.nsFilter item.ns = true) →
      (item.ns = "" → env.icrFalse = false) →
      (⟨grOf res, item.ns, item.name, entryPath (grOf res) item.ns item.name, item⟩ :
          ArchiveEntry) ∈ (backupItemsList env (fuel + 1) res st items).archive
  | [], _, _, hmem, _, _, _, _, _, _ => absurd hmem (List.not_mem_nil _)
  | it :: rest, st, item, hmem, hnd, hk, hlab, ht, hns, hicr => by
    rcases List.mem_cons.1 hmem with rfl | hmemr
    · simp only [backupItemsList]
      rw [if_pos hlab,
        backupItem_actionless_write env hact fuel st res item hf ht hk hns hicr]
      refine mem_archive_of_extends
        (extends_backupItemsList env (fuel + 1) res rest _) ?_
      simp
    · simp only [backupItemsList]
      have hkhead : itemKeyOf res it ≠ itemKeyOf res item := by
        intro heq
        have := (List.nodup_cons.1 hnd).1
        rw [heq] at this
        exact this (List.mem_map_of_mem _ hmemr)
      by_cases hl : env.labelFilter it.labels = true
      · rw [if_pos hl]
        have hk' : itemKeyOf res item ∉ (backupItem env (fuel + 1) st res it).1.backedUp := by
          rcases backupItem_noadd_backedUp env (noAddEnv_of_actionless env hact)
              (fuel + 1) st res it with h2 | h2
          · rw [h2]; exact hk
          · rw [h2]
            intro hmm
            rcases List.mem_cons.1 hmm with heq | hmm2
            · exact hkhead heq.symm
            · exact hk hmm2
        exact backupItemsList_writes env hact fuel res hf rest _ item hmemr
          (List.nodup_cons.1 hnd).2 hk' hlab ht hns hicr
      · rw [if_neg hl]
        exact backupItemsList_writes env hact fuel res hf rest st item hmemr
          (List.nodup_cons.1 hnd).2 hk hlab ht hns hicr

/-- With no actions, an eligible item of an eligible resource reached by
the resource fold ends up in the archive. -/
theorem foldResources_writes (env : RunEnv) (hact : env.actions = []) (fuel : Nat) :
    ∀ (rs : List APIResource) (st : BackupState) (res : APIResource) (item : ResourceItem),
      res ∈ rs →
      (allKeys rs).Nodup →
      cohabSkipGR env.catalog (grOf res) = false →
      env.resourceFilter (grOf res) = true →
      (res.namespaced = false → env.clusterGate = true) →
      item ∈ res.items →
      itemKeyOf res item ∉ st.backedUp →
      env.labelFilter item.labels = true →
      item.terminating = false →
      (item.ns ≠ "" → env.nsFilter item.ns = true) →
      (item.ns = "" → env.icrFalse = false) →
      (⟨grOf res, item.ns, item.name, entryPath (grOf res) item.ns item.name, item⟩ :
          ArchiveEntry) ∈
        (rs.foldl (fun st r => backupResource env (fuel + 1) st r) st).archive
  | [], _, _, _, hres, _, _, _, _, _, _, _, _, _, _ => absurd hres (List.not_mem_nil _)
  | r :: rest, st, res, item, hres, hnd, hc, hf, hgate, hitem, hk, hlab, ht, hns, hicr => by
    rw [List.foldl_cons]
    have hnd2 : (resKeys r).Nodup ∧ (allKeys rest).Nodup ∧ (resKeys r).Disjoint (allKeys rest) :=
      List.nodup_append.1 hnd
    rcases List.mem_cons.1 hres with rfl | hresr
    · have hstep : (backupItemsList env (fuel + 1) res st res.items).archive =
          (backupResource env (fuel + 1) st res).archive := by
        unfold backupResource
        rw [if_neg (by simp [hc]), if_neg (by simp [hf])]
        split
        case isTrue hg => exact absurd (hgate hg.1) (by simp [hg.2])
        case isFalse => rfl
      refine mem_archive_of_extends (extends_foldResources env (fuel + 1) rest _) ?_
      rw [← hstep]
      exact backupItemsList_writes env hact fuel res hf res.items st item hitem
        hnd2.1 hk hlab ht hns hicr
    · have hk' : itemKeyOf res item ∉ (backupResource env (fuel + 1) st r).backedUp := by
        intro hmm
        rcases backedUp_growth_backupResource env (noAddEnv_of_actionless env hact)
            (fuel + 1) st r _ hmm with h1 | h1
        · exact hk h1
        · have hmemk : itemKeyOf res item ∈ allKeys rest :=
            mem_allKeys_of_mem hresr (List.mem_map_of_mem _ hitem)
          exact hnd2.2.2 h1 hmemk
      exact foldResources_writes env hact fuel rest _ res item hresr
        hnd2.2.1 hc hf hgate hitem hk' hlab ht hns hicr

/-- Priority ordering permutes the catalog. -/
theorem prioritize_perm : ∀ (names : List String) (catalog : List APIResource),
    List.Perm (prioritize names catalog) catalog
  | [], catalog => List.Perm.refl catalog
  | n :: rest, catalog => by
    simp only [prioritize]
    refine List.Perm.trans (List.Perm.append_left _ (prioritize_perm rest _)) ?_
    have h := List.filter_append_perm (fun r : APIResource => r.name = n) catalog
    simpa only [ne_eq, decide_not] using h

theorem sortedResources_perm (catalog : List APIResource) :
    List.Perm (sortedResources catalog) catalog :=
  prioritize_perm priorityNames catalog

theorem mem_sortedResources {catalog : List APIResource} {res : APIResource}
    (h : res ∈ catalog) : res ∈ sortedResources catalog :=
  (sortedResources_perm catalog).mem_iff.2 h

theorem allKeys_eq_flatMap : ∀ rs : List APIResource, allKeys rs = rs.flatMap resKeys
  | [] => rfl
  | r :: rest => by
    simp only [allKeys, List.flatMap_cons, allKeys_eq_flatMap rest]

theorem allKeys_nodup_sorted (catalog : List APIResource)
    (h : (allKeys catalog).Nodup) : (allKeys (sortedResources catalog)).Nodup := by
  rw [allKeys_eq_flatMap] at h ⊢
  exact (List.Perm.nodup_iff ((sortedResources_perm catalog).flatMap_right resKeys)).2 h

/-- With no actions, an eligible item of an eligible resource of the
catalog ends up in the run's archive, provided the catalog's item keys are
pairwise distinct. -/
theorem runCore_writes (env : RunEnv) (hact : env.actions = []) (fuel : Nat)
    (res : APIResource) (item : ResourceItem)
    (hres : res ∈ env.catalog)
    (hnd : (allKeys env.catalog).Nodup)
    (hc : cohabSkipGR env.catalog (grOf res) = false)
    (hf : env.resourceFilter (grOf res) = true)
    (hgate : res.namespaced = false → env.clusterGate = true)
    (hitem : item ∈ res.items)
    (hlab : env.labelFilter item.labels = true)
    (ht : item.terminating = false)
    (hns : item.ns ≠ "" → env.nsFilter item.ns = true)
    (hicr : item.ns = "" → env.icrFalse = false) :
    (⟨grOf res, item.ns, item.name, entryPath (grOf res) item.ns item.name, item⟩ :
        ArchiveEntry) ∈ (runCore env (fuel + 1)).archive := by
  unfold runCore
  exact foldResources_writes env hact fuel (sortedResources env.catalog) initState res item
    (mem_sortedResources hres) (allKeys_nodup_sorted _ hnd) hc hf hgate hitem
    (List.not_mem_nil _) hlab ht hns hicr

/-! ### Archive ordering for runs without additional items -/

/-- Without additional items, enumerating one resource appends a block of
entries of that resource's group-resource, whose identities form a
subsequence of the enumeration order. -/
theorem backupItemsList_noadd_block (env : RunEnv) (hna : NoAddEnv env)
    (fuel : Nat) (res : APIResource) :
    ∀ (items : List ResourceItem) (st : BackupState),
      ∃ t, (backupItemsList env fuel res st items).archive = st.archive ++ t ∧
        (∀ e ∈ t, e.gr = grOf res) ∧
        (t.map fun e => (e.ns, e.name)).Sublist (items.map fun it => (it.ns, it.name))
  | [], st => ⟨[], by simp [backupItemsList], by simp, by simp⟩
  | item :: rest, st => by
    simp only [backupItemsList]
    by_cases hl : env.labelFilter item.labels = true
    · rw [if_pos hl]
      rcases backupItem_noadd_arch env hna fuel st res item with h1 | ⟨item', h1⟩
      · obtain ⟨t, ht1, ht2, ht3⟩ :=
          backupItemsList_noadd_block env hna fuel res rest (backupItem env fuel st res item).1
        rw [h1] at ht1
        exact ⟨t, ht1, ht2, List.Sublist.cons _ ht3⟩
      · obtain ⟨t, ht1, ht2, ht3⟩ :=
          backupItemsList_noadd_block env hna fuel res rest (backupItem env fuel st res item).1
        rw [h1] at ht1
        refine ⟨⟨grOf res, item.ns, item.name,
          entryPath (grOf res) item.ns item.name, item'⟩ :: t, ?_, ?_, ?_⟩
        · rw [ht1, List.append_assoc]
          rfl
        · intro e he
          rcases List.mem_cons.1 he with rfl | hm
          · rfl
          · exact ht2 e hm
        · simp only [List.map_cons]
          exact List.Sublist.cons₂ (item.ns, item.name) ht3
    · rw [if_neg hl]
      obtain ⟨t, ht1, ht2, ht3⟩ := backupItemsList_noadd_block env hna fuel res rest st
      exact ⟨t, ht1, ht2, List.Sublist.cons _ ht3⟩

/-- Without additional items, one resource's processing appends a block of
entries of its own group-resource. -/
theorem backupResource_noadd_block (env : RunEnv) (hna : NoAddEnv env)
    (fuel : Nat) (st : BackupState) (res : APIResource) :
    ∃ t, (backupResource env fuel st res).archive = st.archive ++ t ∧
      (∀ e ∈ t, e.gr = grOf res) ∧
      (t.map fun e => (e.ns, e.name)).Sublist (res.items.map fun it => (it.ns, it.name)) := by
  unfold backupResource
  split
  · exact ⟨[], by simp, by simp, by simp⟩
  split
  · exact ⟨[], by simp, by simp, by simp⟩
  split
  · exact ⟨[], by simp, by simp, by simp⟩
  · exact backupItemsList_noadd_block env hna fuel res res.items st

theorem pairwise_le_of_const {α : Type} (f : α → Nat) (k : Nat) :
    ∀ (l : List α), (∀ x ∈ l, f x = k) → List.Pairwise (fun a b => f a ≤ f b) l
  | [], _ => List.Pairwise.nil
  | a :: rest, h => by
    refine List.pairwise_cons.2 ⟨?_, pairwise_le_of_const f k rest
      (fun x hx => h x (List.mem_cons_of_mem _ hx))⟩
    intro b hb
    rw [h a (List.mem_cons_self a rest), h b (List.mem_cons_of_mem _ hb)]

/-- Without additional items, the resource fold keeps the archive sorted by
resource priority, given the pending resources are priority-sorted and
dominate everything already archived. -/
theorem fold_prio_sorted (env : RunEnv) (hna : NoAddEnv env) (fuel : Nat) :
    ∀ (rs : List APIResource) (st : BackupState),
      List.Pairwise (fun r r' : APIResource => prio r.name ≤ prio r'.name) rs →
      List.Pairwise (· ≤ ·) (st.archive.map fun e => prio e.gr.resource) →
      (∀ e ∈ st.archive, ∀ r ∈ rs, prio e.gr.resource ≤ prio r.name) →
      List.Pairwise (· ≤ ·)
        (((rs.foldl (fun st r => backupResource env fuel st r) st).archive).map
          fun e => prio e.gr.resource)
  | [], _, _, hs, _ => hs
  | r :: rest, st, hrs, hs, hb => by
    rw [List.foldl_cons]
    obtain ⟨t, ht1, ht2, _⟩ := backupResource_noadd_block env hna fuel st r
    have hconst : ∀ x ∈ t.map (fun e => prio e.gr.resource), x = prio r.name := by
      intro x hx
      obtain ⟨e, he, rfl⟩ := List.mem_map.1 hx
      rw [ht2 e he]
      rfl
    refine fold_prio_sorted env hna fuel rest _ (List.pairwise_cons.1 hrs).2 ?_ ?_
    · rw [ht1, List.map_append, List.pairwise_append]
      refine ⟨hs, ?_, ?_⟩
      · exact List.Pairwise.imp (fun h => h) (pairwise_le_of_const _ (prio r.name)
          (t.map fun e => prio e.gr.resource) hconst)
      · intro a ha b hb'
        obtain ⟨e, he, rfl⟩ := List.mem_map.1 ha
        rw [hconst b hb']
        exact hb e he r (List.mem_cons_self r rest)
    · intro e he r' hr'
      rw [ht1] at he
      rcases List.mem_append.1 he with hm | hm
      · exact hb e hm r' (List.mem_cons_of_mem _ hr')
      · rw [ht2 e hm]
        exact (List.pairwise_cons.1 hrs).1 r' hr'

/-- The explicit four-block shape of the sorted catalog. -/
theorem sortedResources_eq (c : List APIResource) :
    sortedResources c =
      c.filter (fun r => r.name = "pods") ++
      ((c.filter fun r => r.name ≠ "pods").filter (fun r => r.name = "persistentvolumeclaims") ++
      (((c.filter fun r => r.name ≠ "pods").filter
          fun r => r.name ≠ "persistentvolumeclaims").filter
            (fun r => r.name = "persistentvolumes") ++
        (((c.filter fun r => r.name ≠ "pods").filter
          fun r => r.name ≠ "persistentvolumeclaims").filter
            fun r => r.name ≠ "persistentvolumes"))) := rfl

/-- The sorted catalog is priority-sorted. -/
theorem sortedResources_prio_sorted (c : List APIResource) :
    List.Pairwise (fun r r' : APIResource => prio r.name ≤ prio r'.name)
      (sortedResources c) := by
  rw [sortedResources_eq]
  have hp0 : ∀ r ∈ c.filter (fun r => r.name = "pods"), prio r.name = 0 := by
    intro r hr
    have := of_decide_eq_true (List.mem_filter.1 hr).2
    rw [this]
    rfl
  have hp1 : ∀ r ∈ (c.filter fun r => r.name ≠ "pods").filter
      (fun r => r.name = "persistentvolumeclaims"), prio r.name = 1 := by
    intro r hr
    have := of_decide_eq_true (List.mem_filter.1 hr).2
    rw [this]
    rfl
  have hp2 : ∀ r ∈ ((c.filter fun r => r.name ≠ "pods").filter
      fun r => r.name ≠ "persistentvolumeclaims").filter
        (fun r => r.name = "persistentvolumes"), prio r.name = 2 := by
    intro r hr
    have := of_decide_eq_true (List.mem_filter.1 hr).2
    rw [this]
    rfl
  have hp3 : ∀ r ∈ ((c.filter fun r => r.name ≠ "pods").filter
      fun r => r.name ≠ "persistentvolumeclaims").filter
        fun r => r.name ≠ "persistentvolumes", prio r.name = 3 := by
    intro r hr
    have h3 := of_decide_eq_true (List.mem_filter.1 hr).2
    have h2 := of_decide_eq_true (List.mem_filter.1 (List.mem_filter.1 hr).1).2
    have h1 := of_decide_eq_true
      (List.mem_filter.1 (List.mem_filter.1 (List.mem_filter.1 hr).1).1).2
    unfold prio
    rw [if_neg h1, if_neg h2, if_neg h3]
  rw [List.pairwise_append]
  refine ⟨List.Pairwise.imp (fun h => h)
      (pairwise_le_of_const (fun r : APIResource => prio r.name) 0 _ hp0), ?_, ?_⟩
  · rw [List.pairwise_append]
    refine ⟨List.Pairwise.imp (fun h => h)
        (pairwise_le_of_const (fun r : APIResource => prio r.name) 1 _ hp1), ?_, ?_⟩
    · rw [List.pairwise_append]
      refine ⟨List.Pairwise.imp (fun h => h)
          (pairwise_le_of_const (fun r : APIResource => prio r.name) 2 _ hp2), ?_, ?_⟩
      · exact List.Pairwise.imp (fun h => h)
          (pairwise_le_of_const (fun r : APIResource => prio r.name) 3 _ hp3)
      · intro a ha b hb
        rw [hp2 a ha, hp3 b hb]
        exact by omega
    · intro a ha b hb
      rw [hp1 a ha]
      rcases List.mem_append.1 hb with h | h
      · rw [hp2 b h]; omega
      · rw [hp3 b h]; omega
  · intro a ha b hb
    rw [hp0 a ha]
    exact Nat.zero_le _

/-! ### Further small step lemmas used by the claims -/

@[simp] theorem pushErr_snapshots (st : BackupState) : (pushErr st).snapshots = st.snapshots := rfl

@[simp] theorem markItem_snapshots (st : BackupState) (k : ItemKey) :
    (markItem st k).snapshots = st.snapshots := rfl

@[simp] theorem pushEntry_snapshots (st : BackupState) (e : ArchiveEntry) :
    (pushEntry st e).snapshots = st.snapshots := rfl

@[simp] theorem recordRun_snapshots (st : BackupState)
    (x : Nat × GroupResource × String × String) : (recordRun st x).snapshots = st.snapshots := rfl

theorem extends_addBk (env : RunEnv) (fuel : Nat) :
    ∀ (s : BackupState) (id : ResourceIdentifier), Extends s (addBk env fuel s id).1 := by
  intro s id
  unfold addBk
  cases h : resolveIdentifier env.catalog id with
  | none => exact extends_pushErr s
  | some p =>
    rcases p with ⟨res', it'⟩
    simp only
    split
    · exact Extends.rfl s
    · exact backupItem_extends env fuel s res' it'

theorem mem_actionRuns_of_extends {st st' : BackupState} (h : Extends st st')
    {x : Nat × GroupResource × String × String} (hx : x ∈ st.actionRuns) :
    x ∈ st'.actionRuns := by
  obtain ⟨_, _, ⟨u, hu⟩⟩ := h
  rw [hu]
  exact List.mem_append_left _ hx

/-- Running a single applicable action whose additional items all fail:
the state of the failure is returned and the chain reports the error. -/
theorem runActions_single_fail
    (bk : BackupState → ResourceIdentifier → BackupState × Bool)
    (catalog : List APIResource) (gr : GroupResource) (orig : ResourceItem)
    (st : BackupState) (a : BackupItemAction) (item' : ResourceItem)
    (ids : List ResourceIdentifier) (st2 : BackupState) (idx : Nat)
    (happ : actionApplies catalog a.selector gr orig = true)
    (hx : a.execute orig = some (item', ids))
    (hfail : backupAdditionalList bk (recordRun st (idx, gr, orig.ns, orig.name)) ids =
      (st2, false)) :
    runActions bk catalog gr orig st orig idx [a] = (st2, item', false) := by
  simp only [runActions]
  rw [if_pos happ, hx]
  show (match backupAdditionalList bk (recordRun st (idx, gr, orig.ns, orig.name)) ids with
    | (st2, true) => runActions bk catalog gr orig st2 item' (idx + 1) []
    | (st2, false) => (st2, item', false)) = (st2, item', false)
  rw [hfail]

/-- Running a single applicable action that succeeds with no additional
items: the action log gains one record and the mutated item is returned. -/
theorem runActions_single_ok
    (bk : BackupState → ResourceIdentifier → BackupState × Bool)
    (catalog : List APIResource) (gr : GroupResource) (orig : ResourceItem)
    (st : BackupState) (a : BackupItemAction) (item' : ResourceItem) (idx : Nat)
    (happ : actionApplies catalog a.selector gr orig = true)
    (hx : a.execute orig = some (item', [])) :
    runActions bk catalog gr orig st orig idx [a] =
      (recordRun st (idx, gr, orig.ns, orig.name), item', true) := by
  simp only [runActions]
  rw [if_pos happ, hx]
  rfl

/-- A single applicable action always leaves its execution record in the
action log, whatever its outcome. -/
theorem runActions_single_records
    (bk : BackupState → ResourceIdentifier → BackupState × Bool)
    (hbk : ∀ s id, Extends s (bk s id).1)
    (catalog : List APIResource) (gr : GroupResource) (orig : ResourceItem)
    (st : BackupState) (a : BackupItemAction) (idx : Nat)
    (happ : actionApplies catalog a.selector gr orig = true) :
    (idx, gr, orig.ns, orig.name) ∈ (runActions bk catalog gr orig st orig idx [a]).1.actionRuns := by
  have hmem : (idx, gr, orig.ns, orig.name) ∈
      (recordRun st (idx, gr, orig.ns, orig.name)).actionRuns := by
    simp
  simp only [runActions]
  rw [if_pos happ]
  rcases hx : a.execute orig with _ | ⟨cur', ids⟩
  · exact hmem
  · rcases hl : backupAdditionalList bk (recordRun st (idx, gr, orig.ns, orig.name)) ids
      with ⟨st2, flag⟩
    have h2 : (idx, gr, orig.ns, orig.name) ∈ st2.actionRuns := by
      have := extends_backupAdditionalList bk hbk ids
        (recordRun st (idx, gr, orig.ns, orig.name))
      rw [hl] at this
      exact mem_actionRuns_of_extends this hmem
    show (idx, gr, orig.ns, orig.name) ∈
      (match backupAdditionalList bk (recordRun st (idx, gr, orig.ns, orig.name)) ids with
        | (st2, true) => runActions bk catalog gr orig st2 cur' (idx + 1) []
        | (st2, false) => (st2, cur', false)).1.actionRuns
    rw [hl]
    cases flag
    · exact h2
    · exact h2

/-- A cluster-scoped resource is skipped at enumeration time when the
cluster gate is closed. -/
theorem backupResource_cluster_skip (env : RunEnv) (fuel : Nat) (st : BackupState)
    (res : APIResource) (hn : res.namespaced = false) (hg : env.clusterGate = false) :
    backupResource env fuel st res = st := by
  unfold backupResource
  split
  · rfl
  split
  · rfl
  split
  · rfl
  case isFalse h => exact absurd ⟨hn, hg⟩ h

/-- Without additional items and with the cluster gate closed, every entry
the fold adds comes from a namespaced resource's own items. -/
theorem fold_entries_ns (env : RunEnv) (hna : NoAddEnv env) (fuel : Nat)
    (hgate : env.clusterGate = false) :
    ∀ (rs : List APIResource) (st : BackupState),
      (∀ r ∈ rs, r.namespaced = true → ∀ it ∈ r.items, it.ns ≠ "") →
      ∀ e ∈ (rs.foldl (fun st r => backupResource env fuel st r) st).archive,
        e ∈ st.archive ∨ e.ns ≠ ""
  | [], _, _, _, he => Or.inl he
  | r :: rest, st, hwf, e, he => by
    rw [List.foldl_cons] at he
    rcases fold_entries_ns env hna fuel hgate rest _
        (fun r' hr' => hwf r' (List.mem_cons_of_mem _ hr')) e he with h1 | h1
    · cases hn : r.namespaced with
      | false =>
        rw [backupResource_cluster_skip env fuel st r hn hgate] at h1
        exact Or.inl h1
      | true =>
        obtain ⟨t, ht1, _, ht3⟩ := backupResource_noadd_block env hna fuel st r
        rw [ht1] at h1
        rcases List.mem_append.1 h1 with h2 | h2
        · exact Or.inl h2
        · refine Or.inr ?_
          have hpair : (e.ns, e.name) ∈ r.items.map fun it => (it.ns, it.name) :=
            ht3.subset (List.mem_map_of_mem _ h2)
          obtain ⟨it, hit, hiteq⟩ := List.mem_map.1 hpair
          have : it.ns = e.ns := congrArg Prod.fst hiteq
          rw [← this]
          exact hwf r (List.mem_cons_self r rest) hn it hit
    · exact Or.inr h1

/-- Without additional items, resources of other group-resources never add
entries of a given group-resource. -/
theorem fold_filter_other (env : RunEnv) (hna : NoAddEnv env) (fuel : Nat)
    (g : GroupResource) :
    ∀ (rs : List APIResource) (st : BackupState), (∀ r ∈ rs, grOf r ≠ g) →
      ((rs.foldl (fun st r => backupResource env fuel st r) st).archive.filter
        fun e => e.gr = g) = st.archive.filter fun e => e.gr = g
  | [], _, _ => rfl
  | r :: rest, st, h => by
    rw [List.foldl_cons,
      fold_filter_other env hna fuel g rest _ (fun r' hr' => h r' (List.mem_cons_of_mem _ hr'))]
    obtain ⟨t, ht1, ht2, _⟩ := backupResource_noadd_block env hna fuel st r
    rw [ht1, List.filter_append]
    have hnil : t.filter (fun e => e.gr = g) = [] := by
      rw [List.filter_eq_nil_iff]
      intro e he
      simp only [decide_eq_true_eq]
      rw [ht2 e he]
      exact h r (List.mem_cons_self r rest)
    rw [hnil, List.append_nil]

/-- Without additional items, the entries of one group-resource in the
final archive are exactly the block its own resource contributed, whose
identities follow the enumeration order. -/
theorem fold_filter_main (env : RunEnv) (hna : NoAddEnv env) (fuel : Nat)
    (res : APIResource) (l1 l2 : List APIResource) (st : BackupState)
    (h1 : ∀ r ∈ l1, grOf r ≠ grOf res) (h2 : ∀ r ∈ l2, grOf r ≠ grOf res)
    (h0 : (st.archive.filter fun e => e.gr = grOf res) = []) :
    ((((l1 ++ res :: l2).foldl (fun st r => backupResource env fuel st r) st).archive.filter
        fun e => e.gr = grOf res).map fun e => (e.ns, e.name)).Sublist
      (res.items.map fun it => (it.ns, it.name)) := by
  rw [List.foldl_append, List.foldl_cons]
  obtain ⟨t, ht1, ht2, ht3⟩ := backupResource_noadd_block env hna fuel
    (l1.foldl (fun st r => backupResource env fuel st r) st) res
  rw [fold_filter_other env hna fuel (grOf res) l2 _ h2, ht1, List.filter_append,
    fold_filter_other env hna fuel (grOf res) l1 st h1, h0, List.nil_append]
  have hself : t.filter (fun e => e.gr = grOf res) = t := by
    rw [List.filter_eq_self]
    intro e he
    simp only [decide_eq_true_eq]
    exact ht2 e he
  rw [hself]
  exact ht3

/-! ### Request-level helpers -/

@[simp] theorem mkRunEnv_catalog (req : BackupRequest) :
    (mkRunEnv req).catalog = req.catalog := rfl

@[simp] theorem mkRunEnv_actions (req : BackupRequest) :
    (mkRunEnv req).actions = req.actions := rfl

@[simp] theorem mkRunEnv_resourceFilter (req : BackupRequest) (gr : GroupResource) :
    (mkRunEnv req).resourceFilter gr = resourceTypeIncluded req.catalog req.spec gr := rfl

@[simp] theorem mkRunEnv_nsFilter (req : BackupRequest) (ns : String) :
    (mkRunEnv req).nsFilter ns = nsIncluded req.spec ns := rfl

@[simp] theorem mkRunEnv_labelFilter (req : BackupRequest) (ls : List (String × String)) :
    (mkRunEnv req).labelFilter ls = labelMatches req.spec.labelSelector ls := rfl

theorem mkRunEnv_clusterGate_some (req : BackupRequest) (b : Bool)
    (h : req.spec.includeClusterResources = some b) : (mkRunEnv req).clusterGate = b := by
  simp [mkRunEnv, h]

theorem mkRunEnv_clusterGate_none (req : BackupRequest)
    (h : req.spec.includeClusterResources = none) :
    (mkRunEnv req).clusterGate = nsIncludeAll req.spec := by
  simp [mkRunEnv, h]

theorem mkRunEnv_icrFalse_of_ne (req : BackupRequest)
    (h : req.spec.includeClusterResources ≠ some false) : (mkRunEnv req).icrFalse = false := by
  simp only [mkRunEnv]
  exact decide_eq_false h

theorem mkRunEnv_icrFalse_of_eq (req : BackupRequest)
    (h : req.spec.includeClusterResources = some false) : (mkRunEnv req).icrFalse = true := by
  simp [mkRunEnv, h]

/-- Two requests whose prepared environments and fuel agree run
identically. -/
theorem runBackup_congr {req1 req2 : BackupRequest}
    (henv : mkRunEnv req1 = mkRunEnv req2) (hfuel : defaultFuel req1 = defaultFuel req2) :
    runBackup req1 = runBackup req2 := by
  unfold runBackup
  rw [henv, hfuel]

/-- A wildcard in a non-empty included-resources set makes every
group-resource pass the type filter. -/
theorem resourceTypeIncluded_wildcard (catalog : List APIResource) (spec : BackupSpec)
    (h1 : spec.includedResources ≠ []) (h2 : "*" ∈ spec.includedResources)
    (gr : GroupResource) : resourceTypeIncluded catalog spec gr = true := by
  unfold resourceTypeIncluded
  rw [if_pos ⟨h1, h2⟩]

/-- A routed, snapshot-enabled volume gets exactly its outcome record. -/
theorem takePVSnapshot_route (env : RunEnv) (item : ResourceItem) (loc : String)
    (vs : VolumeSnapshotter) (vid : String)
    (hsnap : env.snapshotEnabled = true)
    (hroute : routeVolume env item.name = some (loc, vs, vid)) :
    takePVSnapshot env item = some (snapOutcome env loc vs vid item) := by
  unfold takePVSnapshot
  rw [if_neg (by simp [hsnap]), hroute]

/-! ### The claims -/

/-- C1: For every backup run, each item (identified by GroupResource,
namespace, name) appears at most once in the produced archive, regardless
of how many paths reach it — direct enumeration, cohabitation, or being
returned as an additional item by an action. -/
theorem claim_C1 (req : BackupRequest) : ((runBackup req).archive.map entryKey).Nodup :=
  (runCore_archInv (mkRunEnv req) (defaultFuel req)).1

/-- C2: When an action returns additional items and backing up an
additional item fails, the originating item is not written to the archive
(no entry with its key exists afterwards) and the error propagates from
its backup (the item backup reports failure), while everything already in
the archive — including additional items backed up before the failure —
remains, with no rollback (the archive only ever grows). -/
theorem claim_C2 (env : RunEnv) (fuel : Nat) (st st2 : BackupState) (res : APIResource)
    (item item' : ResourceItem) (a : BackupItemAction) (ids : List ResourceIdentifier)
    (hact : env.actions = [a])
    (hf : env.resourceFilter (grOf res) = true)
    (ht : item.terminating = false)
    (hk : (⟨grOf res, item.ns, item.name⟩ : ItemKey) ∉ st.backedUp)
    (hinv : ∀ e ∈ st.archive, entryKey e ∈ st.backedUp)
    (hns : item.ns ≠ "" → env.nsFilter item.ns = true)
    (hicr : item.ns = "" → env.icrFalse = false)
    (happ : actionApplies env.catalog a.selector (grOf res) item = true)
    (hx : a.execute item = some (item', ids))
    (hfail : backupAdditionalList (addBk env fuel)
        (recordRun (markItem st ⟨grOf res, item.ns, item.name⟩)
          (0, grOf res, item.ns, item.name)) ids = (st2, false)) :
    backupItem env (fuel + 1) st res item = (st2, false) ∧
    (∀ e ∈ st2.archive, entryKey e ≠ ⟨grOf res, item.ns, item.name⟩) ∧
    (∃ t, st2.archive = st.archive ++ t) := by
  have h4 : ¬(item.ns ≠ "" ∧ env.nsFilter item.ns = false) := by
    rintro ⟨hne, hff⟩
    rw [hns hne] at hff
    cases hff
  have h5 : ¬(item.ns = "" ∧ env.icrFalse = true) := by
    rintro ⟨hne, hff⟩
    rw [hicr hne] at hff
    cases hff
  have hext := extends_backupAdditionalList (addBk env fuel) (extends_addBk env fuel) ids
    (recordRun (markItem st ⟨grOf res, item.ns, item.name⟩) (0, grOf res, item.ns, item.name))
  rw [hfail] at hext
  refine ⟨?_, ?_, ?_⟩
  · rw [backupItem_succ, hact,
      if_neg (by simp [hf]), if_neg (by simp [ht]), if_neg hk, if_neg h4, if_neg h5,
      runActions_single_fail (addBk env fuel) env.catalog (grOf res) item
        (markItem st ⟨grOf res, item.ns, item.name⟩) a item' ids st2 0 happ hx hfail]
  · obtain ⟨hb, ⟨t, ha, hn, he⟩, _⟩ := hext
    simp only [recordRun_archive, markItem_archive, recordRun_backedUp,
      markItem_backedUp] at ha he
    intro e hem heq'
    rw [ha] at hem
    rcases List.mem_append.1 hem with hm | hm
    · refine hk ?_
      rw [← heq']
      exact hinv e hm
    · refine (he e hm).1 ?_
      rw [heq']
      exact List.mem_cons_self _ _
  · obtain ⟨_, ⟨t, ha, _, _⟩, _⟩ := hext
    simp only [recordRun_archive, markItem_archive] at ha
    exact ⟨t, ha⟩

/-- C2 witness: the failing-additional-items scenario of the tests — the
action on ns-1/pod-1 requests ns-2/pod-2 (exists, gets backed up) and
ns-4/pod-4 (missing, fails); pod-1 is absent from the result while pod-2
and the unrelated pod-3 are archived. -/
theorem claim_C2_witness :
    failAddAction.execute (newPod "ns-1" "pod-1") = some (newPod "ns-1" "pod-1", idsC2) ∧
    backupAdditionalList (addBk envC2 2) st1C2 idsC2 = (st2C2, false) ∧
    backupItem envC2 3 initState resC2 (newPod "ns-1" "pod-1") = (st2C2, false) ∧
    (∀ e ∈ st2C2.archive, entryKey e ≠ ⟨⟨"", "pods"⟩, "ns-1", "pod-1"⟩) ∧
    (∃ t, st2C2.archive = initState.archive ++ t) ∧
    tarballPaths reqC2w = ["metadata/version",
      "resources/pods/namespaces/ns-2/pod-2.json",
      "resources/pods/namespaces/ns-3/pod-3.json"] := by
  have h := claim_C2 envC2 2 initState st2C2 resC2 (newPod "ns-1" "pod-1")
    (newPod "ns-1" "pod-1") failAddAction idsC2 rfl (by decide) rfl (by decide)
    (by decide) (by decide) (by decide) (by decide) rfl (by decide)
  exact ⟨rfl, by decide, h.1, h.2.1, h.2.2, by decide⟩

/-- C3 counterexample: with namespaces filtered to ns-1 and the
cluster-resources tri-state unset, a cluster-scoped persistent volume is
nevertheless included (as an additional item of an action), so cluster
inclusion is not gated solely by the tri-state. -/
theorem claim_C3_counterexample :
    reqC3ce.spec.includeClusterResources = none ∧
    reqC3ce.spec.includedNamespaces = ["ns-1"] ∧
    nsIncludeAll reqC3ce.spec = false ∧
    "resources/persistentvolumes/cluster/pv-1.json" ∈ tarballPaths reqC3ce := by
  refine ⟨rfl, rfl, by decide, by decide⟩

/-- C3 (amended): the IncludeClusterResources tri-state gates direct
enumeration of cluster-scoped resources — explicitly false always excludes
cluster-scoped items (even those requested as additional items), and in an
actionless run the unset state excludes them exactly when the backup names
an explicit namespace subset: unset-with-subset archives no cluster-scoped
entry, while true, or unset with all namespaces, archives every eligible
cluster-scoped item.  (Cluster-scoped additional items of actions are not
excluded by the unset-with-subset state — see the counterexample.) -/
theorem claim_C3 (req : BackupRequest) :
    (req.actions = [] →
      req.spec.includeClusterResources = none →
      nsIncludeAll req.spec = false →
      (∀ r ∈ req.catalog, r.namespaced = true → ∀ it ∈ r.items, it.ns ≠ "") →
      ∀ e ∈ (runBackup req).archive, e.ns ≠ "") ∧
    (req.spec.includeClusterResources = some false →
      ∀ e ∈ (runBackup req).archive, e.ns ≠ "") ∧
    (req.actions = [] →
      (req.spec.includeClusterResources = some true ∨
        (req.spec.includeClusterResources = none ∧ nsIncludeAll req.spec = true)) →
      (allKeys req.catalog).Nodup →
      ∀ res ∈ req.catalog, ∀ item ∈ res.items,
        cohabSkipGR req.catalog (grOf res) = false →
        resourceTypeIncluded req.catalog req.spec (grOf res) = true →
        item.ns = "" →
        labelMatches req.spec.labelSelector item.labels = true →
        item.terminating = false →
        (⟨grOf res, item.ns, item.name,
          entryPath (grOf res) item.ns item.name, item⟩ : ArchiveEntry) ∈
          (runBackup req).archive) := by
  refine ⟨?_, ?_, ?_⟩
  · intro hact hicrn hnall hwf e he
    have hna : NoAddEnv (mkRunEnv req) := noAddEnv_of_actionless _ hact
    have hgate : (mkRunEnv req).clusterGate = false := by
      rw [mkRunEnv_clusterGate_none req hicrn, hnall]
    have hwf' : ∀ r ∈ sortedResources (mkRunEnv req).catalog,
        r.namespaced = true → ∀ it ∈ r.items, it.ns ≠ "" := by
      intro r hr
      exact hwf r ((sortedResources_perm req.catalog).mem_iff.1 hr)
    rcases fold_entries_ns (mkRunEnv req) hna (defaultFuel req) hgate
        (sortedResources (mkRunEnv req).catalog) initState hwf' e he with h | h
    · simp [initState] at h
    · exact h
  · intro hicr e he
    exact runCore_icrFalse (mkRunEnv req) (defaultFuel req)
      (mkRunEnv_icrFalse_of_eq req hicr) e he
  · intro hact hgatehyp hnd res hres item hitem hc hf hns2 hlab ht
    have hgate : (mkRunEnv req).clusterGate = true := by
      rcases hgatehyp with h | ⟨h1, h2⟩
      · exact mkRunEnv_clusterGate_some req true h
      · rw [mkRunEnv_clusterGate_none req h1, h2]
    have hicrf : (mkRunEnv req).icrFalse = false := by
      rcases hgatehyp with h | ⟨h1, _⟩
      · exact mkRunEnv_icrFalse_of_ne req (by simp [h])
      · exact mkRunEnv_icrFalse_of_ne req (by simp [h1])
    exact runCore_writes (mkRunEnv req) hact _ res item hres hnd hc hf
      (fun _ => hgate) hitem hlab ht (fun h => absurd hns2 h) (fun _ => hicrf)

/-- C3 witness: with namespaces ns-1 only and the tri-state unset, an
actionless run archives no cluster-scoped entry; with the tri-state
explicitly true, the persistent volume is archived. -/
theorem claim_C3_witness :
    reqC3w.actions = [] ∧ reqC3w.spec.includeClusterResources = none ∧
    nsIncludeAll reqC3w.spec = false ∧
    (∀ e ∈ (runBackup reqC3w).archive, e.ns ≠ "") ∧
    reqC3w2.spec.includeClusterResources = some true ∧
    (⟨pvGR, "", "pv-1", entryPath pvGR "" "pv-1", newPV "pv-1"⟩ : ArchiveEntry) ∈
      (runBackup reqC3w2).archive := by
  refine ⟨rfl, rfl, by decide, (claim_C3 reqC3w).1 rfl rfl (by decide) (by decide),
    rfl, ?_⟩
  exact (claim_C3 reqC3w2).2.2 rfl (Or.inl rfl) (by decide) (pvsRes [newPV "pv-1"])
    (by decide) (newPV "pv-1") (by decide) (by decide) (by decide) rfl (by decide) rfl

/-- C4: with a wildcard among the (non-empty) included resources, every
group-resource passes the resource-type filter regardless of any other
named inclusions or exclusions, and the whole run is identical to the run
whose included-resources list is just the wildcard. -/
theorem claim_C4 (req : BackupRequest)
    (h1 : req.spec.includedResources ≠ []) (h2 : "*" ∈ req.spec.includedResources) :
    (∀ gr, resourceTypeIncluded req.catalog req.spec gr = true) ∧
    runBackup req =
      runBackup { req with spec := { req.spec with includedResources := ["*"] } } := by
  refine ⟨fun gr => resourceTypeIncluded_wildcard req.catalog req.spec h1 h2 gr, ?_⟩
  have henv : mkRunEnv req =
      mkRunEnv { req with spec := { req.spec with includedResources := ["*"] } } := by
    have hfil : (fun gr => resourceTypeIncluded req.catalog req.spec gr) =
        (fun gr => resourceTypeIncluded
          { req with spec := { req.spec with includedResources := ["*"] } }.catalog
          { req with spec := { req.spec with includedResources := ["*"] } }.spec gr) := by
      funext gr
      rw [resourceTypeIncluded_wildcard req.catalog req.spec h1 h2 gr,
        resourceTypeIncluded_wildcard _ _ (by simp) (by simp) gr]
    unfold mkRunEnv
    rw [hfil]
    rfl
  exact runBackup_congr henv rfl

/-- C4 witness: includedResources = ["*", "pods"] filters identically to
["*"] on the two-resource catalog of the tests. -/
theorem claim_C4_witness :
    reqC4w.spec.includedResources ≠ [] ∧ "*" ∈ reqC4w.spec.includedResources ∧
    (∀ gr, resourceTypeIncluded reqC4w.catalog reqC4w.spec gr = true) ∧
    runBackup reqC4w =
      runBackup { reqC4w with spec := { reqC4w.spec with includedResources := ["*"] } } := by
  have h := claim_C4 reqC4w (by decide) (by decide)
  exact ⟨by decide, by decide, h.1, h.2⟩

/-- C5: a `*` entry in the excluded-resources set is ignored — the
resource-type filter with excludedResources = ["*"] equals the filter with
no exclusions, and the whole run is identical to the run with no
exclusions. -/
theorem claim_C5 (req : BackupRequest) :
    (∀ gr, resourceTypeIncluded req.catalog
        { req.spec with excludedResources := ["*"] } gr =
      resourceTypeIncluded req.catalog { req.spec with excludedResources := [] } gr) ∧
    runBackup { req with spec := { req.spec with excludedResources := ["*"] } } =
      runBackup { req with spec := { req.spec with excludedResources := [] } } :=
  ⟨fun _ => rfl, rfl⟩

/-- C6: when a cohabiting resource exists under both its legacy
(extensions) group and its current group, no legacy-group entry is ever
archived (whatever the actions do), the current-group variant's eligible
items are archived, and a second run of the same request — each run
starting from a fresh per-run state — produces the same archive. -/
theorem claim_C6 (req : BackupRequest) :
    (∀ name legacy current, (name, legacy, current) ∈ cohabitatingResources →
      (∃ r ∈ req.catalog, r.name = name ∧ r.group = current) →
      ∀ e ∈ (runBackup req).archive, e.gr ≠ ⟨legacy, name⟩) ∧
    (req.actions = [] →
      (allKeys req.catalog).Nodup →
      ∀ res ∈ req.catalog, res.group ≠ "extensions" →
      ∀ item ∈ res.items,
        resourceTypeIncluded req.catalog req.spec (grOf res) = true →
        (res.namespaced = false → (mkRunEnv req).clusterGate = true) →
        labelMatches req.spec.labelSelector item.labels = true →
        item.terminating = false →
        (item.ns ≠ "" → nsIncluded req.spec item.ns = true) →
        (item.ns = "" → req.spec.includeClusterResources ≠ some false) →
        (⟨grOf res, item.ns, item.name,
          entryPath (grOf res) item.ns item.name, item⟩ : ArchiveEntry) ∈
          (runBackup req).archive) ∧
    (runBackupTwice req).1 = (runBackupTwice req).2 := by
  refine ⟨?_, ?_, rfl⟩
  · intro name legacy current hmem hcur e he heq
    have h1 := runCore_cohab (mkRunEnv req) (defaultFuel req) e he
    simp only [mkRunEnv_catalog] at h1
    rw [heq, cohabSkipGR_true_of req.catalog name legacy current hmem hcur] at h1
    cases h1
  · intro hact hnd res hres hng item hitem hf hgate hlab ht hns hicrne
    exact runCore_writes (mkRunEnv req) hact _ res item hres hnd
      (cohabSkipGR_false_of_group req.catalog (grOf res) hng) hf hgate hitem hlab ht hns
      (fun hns2 => mkRunEnv_icrFalse_of_ne req (hicrne hns2))

/-- C6 witness: with deployments in both the extensions and apps groups,
only the apps entry is archived, and a repeated run agrees. -/
theorem claim_C6_witness :
    (∃ r ∈ reqC6w.catalog, r.name = "deployments" ∧ r.group = "apps") ∧
    (∀ e ∈ (runBackup reqC6w).archive, e.gr ≠ ⟨"extensions", "deployments"⟩) ∧
    (⟨⟨"apps", "deployments"⟩, "foo", "bar",
      "resources/deployments.apps/namespaces/foo/bar.json",
      newPod "foo" "bar"⟩ : ArchiveEntry) ∈ (runBackup reqC6w).archive ∧
    (runBackupTwice reqC6w).1 = (runBackupTwice reqC6w).2 := by
  refine ⟨by decide, ?_, ?_, (claim_C6 reqC6w).2.2⟩
  · exact (claim_C6 reqC6w).1 "deployments" "extensions" "apps" (by decide) (by decide)
  · exact (claim_C6 reqC6w).2.1 rfl (by decide) (deploysRes [newPod "foo" "bar"])
      (by decide) (by decide) (newPod "foo" "bar") (by decide) (by decide)
      (fun h => absurd h (by decide)) (by decide) (by decide)
      (fun _ => by decide) (fun h => absurd h (by decide))

/-- C7 counterexample: an action that pulls a persistent volume in as an
additional item of a pod makes the volume's entry precede the pod's and
the claims' entries, so the fixed cross-type priority ordering does not
hold for every backup. -/
theorem claim_C7_counterexample :
    ¬ List.Pairwise (· ≤ ·)
      ((runBackup reqC7ce).archive.map fun e => prio e.gr.resource) := by decide

/-- C7 (amended): for every backup in which no action returns additional
items, and every input ordering of discovered API resources, archive
entries are ordered across resource types by the fixed priority — pods,
then persistentvolumeclaims, then persistentvolumes, then all remaining
types — and (when the discovered group-resources are distinct) the entries
of one resource type follow its enumeration order. -/
theorem claim_C7 (req : BackupRequest)
    (hna : ∀ a ∈ req.actions, ∀ it r, a.execute it = some r → r.2 = []) :
    List.Pairwise (· ≤ ·) ((runBackup req).archive.map fun e => prio e.gr.resource) ∧
    ((req.catalog.map grOf).Nodup →
      ∀ res ∈ req.catalog,
        (((runBackup req).archive.filter fun e => e.gr = grOf res).map
          fun e => (e.ns, e.name)).Sublist (res.items.map fun it => (it.ns, it.name))) := by
  have hna' : NoAddEnv (mkRunEnv req) := hna
  constructor
  · exact fold_prio_sorted (mkRunEnv req) hna' (defaultFuel req)
      (sortedResources (mkRunEnv req).catalog) initState
      (sortedResources_prio_sorted _) (by simp [initState])
      (by intro e he; simp [initState] at he)
  · intro hnd res hres
    obtain ⟨l1, l2, hdec⟩ := List.append_of_mem (mem_sortedResources hres)
    have hmapnd : ((sortedResources req.catalog).map grOf).Nodup :=
      (List.Perm.nodup_iff ((sortedResources_perm req.catalog).map grOf)).2 hnd
    rw [hdec, List.map_append, List.map_cons] at hmapnd
    have hnd3 := List.nodup_append.1 hmapnd
    have h1 : ∀ r ∈ l1, grOf r ≠ grOf res := by
      intro r hr heq
      refine hnd3.2.2 (List.mem_map_of_mem _ hr) ?_
      rw [heq]
      exact List.mem_cons_self _ _
    have h2 : ∀ r ∈ l2, grOf r ≠ grOf res := by
      intro r hr heq
      refine (List.nodup_cons.1 hnd3.2.1).1 ?_
      rw [← heq]
      exact List.mem_map_of_mem _ hr
    have hrun : runBackup req =
        (l1 ++ res :: l2).foldl
          (fun st r => backupResource (mkRunEnv req) (defaultFuel req) st r) initState := by
      unfold runBackup runCore
      rw [show sortedResources (mkRunEnv req).catalog = l1 ++ res :: l2 from hdec]
    rw [hrun]
    exact fold_filter_main (mkRunEnv req) hna' (defaultFuel req) res l1 l2 initState h1 h2 rfl

/-- C7 witness: the ordering test — pods, claims, volumes and secrets
discovered out of order are archived in priority order, one entry per
item. -/
theorem claim_C7_witness :
    (∀ a ∈ reqC7w.actions, ∀ it r, a.execute it = some r → r.2 = []) ∧
    List.Pairwise (· ≤ ·) ((runBackup reqC7w).archive.map fun e => prio e.gr.resource) ∧
    tarballPaths reqC7w = ["metadata/version",
      "resources/pods/namespaces/foo/bar.json",
      "resources/persistentvolumeclaims/namespaces/foo/bar.json",
      "resources/persistentvolumes/cluster/bar.json",
      "resources/secrets/namespaces/foo/bar.json"] := by
  have hna : ∀ a ∈ reqC7w.actions, ∀ it r, a.execute it = some r → r.2 = [] := by
    intro a ha
    simp [reqC7w, mkReq] at ha
  exact ⟨hna, (claim_C7 reqC7w hna).1, by decide⟩

/-- C8: for a volume processed by the snapshot orchestrator (routable to a
configured location and snapshotter), exactly one snapshot record is
appended — with phase Failed and no provider snapshot ID when the
backend's CreateSnapshot errors, and with phase Completed and the
provider-assigned snapshot ID when it succeeds — and the item backup
reports success either way, so the rest of the run continues. -/
theorem claim_C8 (env : RunEnv) (fuel : Nat) (st : BackupState) (res : APIResource)
    (item : ResourceItem) (loc : String) (vs : VolumeSnapshotter) (vid : String)
    (hact : env.actions = [])
    (hgr : grOf res = pvGR)
    (hf : env.resourceFilter (grOf res) = true)
    (ht : item.terminating = false)
    (hns2 : item.ns = "")
    (hicr : env.icrFalse = false)
    (hk : (⟨grOf res, item.ns, item.name⟩ : ItemKey) ∉ st.backedUp)
    (hsnap : env.snapshotEnabled = true)
    (hroute : routeVolume env item.name = some (loc, vs, vid)) :
    (backupItem env (fuel + 1) st res item).1.snapshots =
      st.snapshots ++ [snapOutcome env loc vs vid item] ∧
    (backupItem env (fuel + 1) st res item).2 = true ∧
    (snapOutcome env loc vs vid item).spec.persistentVolumeName = item.name ∧
    (snapOutcome env loc vs vid item).spec.providerVolumeID = vid ∧
    (snapOutcome env loc vs vid item).spec.location = loc ∧
    (snapOutcome env loc vs vid item).spec.backupName = env.backupName ∧
    (∀ sid, vs.createSnapshot vid (pvAZ item) = some sid →
      (snapOutcome env loc vs vid item).status.phase = SnapshotPhase.completed ∧
      (snapOutcome env loc vs vid item).status.providerSnapshotID = sid) ∧
    (vs.createSnapshot vid (pvAZ item) = none →
      (snapOutcome env loc vs vid item).status.phase = SnapshotPhase.failed ∧
      (snapOutcome env loc vs vid item).status.providerSnapshotID = "") := by
  rw [backupItem_actionless_write env hact fuel st res item hf ht hk
    (fun h => absurd hns2 h) (fun _ => hicr)]
  refine ⟨?_, rfl, rfl, rfl, rfl, rfl, ?_, ?_⟩
  · show (pushEntry (snapshotStep env (grOf res) item
        (markItem st ⟨grOf res, item.ns, item.name⟩)) _).snapshots =
      st.snapshots ++ [snapOutcome env loc vs vid item]
    rw [pushEntry_snapshots]
    unfold snapshotStep
    rw [if_pos hgr, takePVSnapshot_route env item loc vs vid hsnap hroute]
    simp
  · intro sid hcs
    constructor
    · simp [snapOutcome, hcs]
    · simp [snapOutcome, hcs]
  · intro hcs
    constructor
    · simp [snapOutcome, hcs]
    · simp [snapOutcome, hcs]

/-- C8 witness: the failing fake backend yields exactly one Failed record
with no provider snapshot ID; the succeeding one yields a Completed record
with the non-empty provider-assigned ID. -/
theorem claim_C8_witness :
    (mkRunEnv (snapReq true)).actions = [] ∧
    routeVolume (mkRunEnv (snapReq true)) "pv-1" =
      some ("default", fakeVS "pv-1" "vol-1" "" "type-1" 100 true, "vol-1") ∧
    (backupItem (mkRunEnv (snapReq true)) 1 initState (pvsRes [newPV "pv-1"])
        (newPV "pv-1")).1.snapshots =
      initState.snapshots ++ [snapOutcome (mkRunEnv (snapReq true)) "default"
        (fakeVS "pv-1" "vol-1" "" "type-1" 100 true) "vol-1" (newPV "pv-1")] ∧
    (snapOutcome (mkRunEnv (snapReq true)) "default"
      (fakeVS "pv-1" "vol-1" "" "type-1" 100 true) "vol-1" (newPV "pv-1")).status =
        ⟨SnapshotPhase.failed, ""⟩ ∧
    (snapOutcome (mkRunEnv (snapReq false)) "default"
      (fakeVS "pv-1" "vol-1" "" "type-1" 100 false) "vol-1" (newPV "pv-1")).status =
        ⟨SnapshotPhase.completed, "vol-1-snapshot"⟩ ∧
    "vol-1-snapshot" ≠ "" := by
  refine ⟨rfl, rfl, ?_, by decide, by decide, by decide⟩
  exact (claim_C8 (mkRunEnv (snapReq true)) 0 initState (pvsRes [newPV "pv-1"])
    (newPV "pv-1") "default" (fakeVS "pv-1" "vol-1" "" "type-1" 100 true) "vol-1"
    rfl rfl (by decide) rfl rfl (by decide) (by decide) (by decide) rfl).1

/-- C9: when an action's Execute mutates the item (in particular its name
or namespace), the archived entry's content is the mutated item, while the
entry's path is computed from the item's name and namespace as they were
before any action ran. -/
theorem claim_C9 (env : RunEnv) (fuel : Nat) (st : BackupState) (res : APIResource)
    (item item' : ResourceItem) (a : BackupItemAction)
    (hact : env.actions = [a])
    (hf : env.resourceFilter (grOf res) = true)
    (ht : item.terminating = false)
    (hk : (⟨grOf res, item.ns, item.name⟩ : ItemKey) ∉ st.backedUp)
    (hns : item.ns ≠ "" → env.nsFilter item.ns = true)
    (hicr : item.ns = "" → env.icrFalse = false)
    (happ : actionApplies env.catalog a.selector (grOf res) item = true)
    (hx : a.execute item = some (item', [])) :
    (backupItem env (fuel + 1) st res item).1.archive =
      st.archive ++ [⟨grOf res, item.ns, item.name,
        entryPath (grOf res) item.ns item.name, item'⟩] ∧
    (backupItem env (fuel + 1) st res item).2 = true := by
  have h4 : ¬(item.ns ≠ "" ∧ env.nsFilter item.ns = false) := by
    rintro ⟨hne, hff⟩
    rw [hns hne] at hff
    cases hff
  have h5 : ¬(item.ns = "" ∧ env.icrFalse = true) := by
    rintro ⟨hne, hff⟩
    rw [hicr hne] at hff
    cases hff
  have heq : backupItem env (fuel + 1) st res item =
      (pushEntry (snapshotStep env (grOf res) item'
          (recordRun (markItem st ⟨grOf res, item.ns, item.name⟩)
            (0, grOf res, item.ns, item.name)))
        ⟨grOf res, item.ns, item.name, entryPath (grOf res) item.ns item.name, item'⟩,
        true) := by
    rw [backupItem_succ, hact,
      if_neg (by simp [hf]), if_neg (by simp [ht]), if_neg hk, if_neg h4, if_neg h5,
      runActions_single_ok (addBk env fuel) env.catalog (grOf res) item
        (markItem st ⟨grOf res, item.ns, item.name⟩) a item' 0 happ hx]
  rw [heq]
  exact ⟨by simp, rfl⟩

/-- C9 witness: the rename action's mutated namespace and name appear in
the archived content while the path keeps the original ns-1/pod-1
identity. -/
theorem claim_C9_witness :
    renameAction.execute (newPod "ns-1" "pod-1") =
      some (⟨"ns-1-updated", "pod-1-updated", [], false⟩, []) ∧
    (backupItem envC9 1 initState (podsRes [newPod "ns-1" "pod-1"])
        (newPod "ns-1" "pod-1")).1.archive =
      initState.archive ++ [⟨⟨"", "pods"⟩, "ns-1", "pod-1",
        "resources/pods/namespaces/ns-1/pod-1.json",
        ⟨"ns-1-updated", "pod-1-updated", [], false⟩⟩] ∧
    (backupItem envC9 1 initState (podsRes [newPod "ns-1" "pod-1"])
        (newPod "ns-1" "pod-1")).2 = true := by
  have h := claim_C9 envC9 0 initState (podsRes [newPod "ns-1" "pod-1"])
    (newPod "ns-1" "pod-1") ⟨"ns-1-updated", "pod-1-updated", [], false⟩ renameAction
    rfl (by decide) rfl (by decide) (by decide) (by decide) (by decide) rfl
  exact ⟨rfl, h.1, h.2⟩

/-- C10: an action whose AppliesTo selector names included namespaces but
no resource or label restrictions executes not only for items in those
namespaces but also for every cluster-scoped item that reaches the action
phase, even though cluster-scoped items have no namespace. -/
theorem claim_C10 (env : RunEnv) (fuel : Nat) (st : BackupState) (res : APIResource)
    (item : ResourceItem) (a : BackupItemAction)
    (hact : env.actions = [a])
    (hselr : a.selector.includedResources = [])
    (hsell : a.selector.labelSelector = none)
    (_hnsel : a.selector.includedNamespaces ≠ [])
    (hf : env.resourceFilter (grOf res) = true)
    (ht : item.terminating = false)
    (hk : (⟨grOf res, item.ns, item.name⟩ : ItemKey) ∉ st.backedUp)
    (hns : item.ns ≠ "" → env.nsFilter item.ns = true)
    (hicr : item.ns = "" → env.icrFalse = false)
    (hmatch : item.ns = "" ∨ item.ns ∈ a.selector.includedNamespaces) :
    (0, grOf res, item.ns, item.name) ∈
      (backupItem env (fuel + 1) st res item).1.actionRuns := by
  have happ : actionApplies env.catalog a.selector (grOf res) item = true := by
    unfold actionApplies
    rw [if_pos]
    refine ⟨Or.inl hselr, ?_, ?_⟩
    · rcases hmatch with h | h
      · exact Or.inl h
      · exact Or.inr (Or.inr h)
    · rw [hsell]
      rfl
  have h4 : ¬(item.ns ≠ "" ∧ env.nsFilter item.ns = false) := by
    rintro ⟨hne, hff⟩
    rw [hns hne] at hff
    cases hff
  have h5 : ¬(item.ns = "" ∧ env.icrFalse = true) := by
    rintro ⟨hne, hff⟩
    rw [hicr hne] at hff
    cases hff
  rw [backupItem_succ, hact,
    if_neg (by simp [hf]), if_neg (by simp [ht]), if_neg hk, if_neg h4, if_neg h5]
  rcases hR : runActions (addBk env fuel) env.catalog (grOf res) item
      (markItem st ⟨grOf res, item.ns, item.name⟩) item 0 [a] with ⟨st1, it', flag⟩
  have hrec : (0, grOf res, item.ns, item.name) ∈ st1.actionRuns := by
    have := runActions_single_records (addBk env fuel) (extends_addBk env fuel)
      env.catalog (grOf res) item (markItem st ⟨grOf res, item.ns, item.name⟩) a 0 happ
    rw [hR] at this
    exact this
  cases flag
  · exact hrec
  · show (0, grOf res, item.ns, item.name) ∈
      (pushEntry (snapshotStep env (grOf res) it' st1) _).actionRuns
    rw [pushEntry_actionRuns, snapshotStep_actionRuns]
    exact hrec

/-- C10 witness: the ns-1-selector action runs for the cluster-scoped
persistent volume pv-1, which has no namespace. -/
theorem claim_C10_witness :
    nsSelAction.selector.includedResources = [] ∧
    nsSelAction.selector.labelSelector = none ∧
    nsSelAction.selector.includedNamespaces = ["ns-1"] ∧
    (newPV "pv-1").ns = "" ∧
    (0, pvGR, "", "pv-1") ∈
      (backupItem envC10 1 initState (pvsRes [newPV "pv-1", newPV "pv-2"])
        (newPV "pv-1")).1.actionRuns := by
  refine ⟨rfl, rfl, rfl, rfl, ?_⟩
  exact claim_C10 envC10 0 initState (pvsRes [newPV "pv-1", newPV "pv-2"])
    (newPV "pv-1") nsSelAction rfl rfl rfl (by decide) (by decide) rfl (by decide)
    (fun h => absurd rfl h) (fun _ => rfl) (Or.inl rfl)

end ArkBackup
